import Mathlib

/-!
Verification of the two-phase collect/process queue pattern of the Summit CRM
(three subsystems: worksheet validation, review-request notification, outbound
review notification).  The services are embedded shallowly: sheet rows are
lists of cell strings, external collaborators (document store, file store,
mailer, clock, execution-time guard) are passed in as explicit data or
functions, and each service's loops become structural recursions over lists.
All definitions follow the JavaScript source of the services; spreadsheet
values are modelled as strings (an empty cell reads as the empty string, which
coincides with JavaScript falsiness for the checks the code performs).
JavaScript string methods (`trim`, `toLowerCase`, `startsWith`, `includes`)
are modelled by executable character-list functions.
-/

set_option autoImplicit false

namespace Summit

/-! ### JavaScript string primitives (character-list based, fully reducible) -/

/-- `String.prototype.toLowerCase` (ASCII case mapping, as the code only
compares ASCII status words and filename prefixes). -/
def strToLower (s : String) : String :=
  String.mk (s.toList.map Char.toLower)

/-- `String.prototype.trim`: strip whitespace from both ends. -/
def strTrim (s : String) : String :=
  String.mk (((s.toList.dropWhile Char.isWhitespace).reverse.dropWhile Char.isWhitespace).reverse)

/-- `String.prototype.startsWith`. -/
def strStartsWith (s pat : String) : Bool :=
  List.isPrefixOf pat.toList s.toList

/-- Helper for `strContains`: does `pat` occur as a contiguous run? -/
def containsAux (pat : List Char) : List Char → Bool
  | [] => pat.isEmpty
  | c :: cs => List.isPrefixOf pat (c :: cs) || containsAux pat cs

/-- `String.prototype.includes`. -/
def strContains (s pat : String) : Bool :=
  containsAux pat.toList s.toList

/-! ### Sheet-row primitives -/

/-- Read cell `i` of a row (0-based, as in the services' COLUMNS maps).
Out-of-range reads yield `""`, matching how the code's falsiness checks treat
`undefined`. -/
def cell (row : List String) (i : Nat) : String :=
  (row.get? i).getD ""

/-- `setValues` on a 1-row range starting at 0-based column `start`:
overwrites `vals.length` cells of `row` starting at `start`. -/
def writeRange (row : List String) (start : Nat) (vals : List String) : List String :=
  row.take start ++ vals ++ row.drop (start + vals.length)

/-- Replace the element at index `n` by `f` of it (used for targeted row
updates of a queue sheet held as a list of rows). -/
def modifyAt {α : Type} (l : List α) (n : Nat) (f : α → α) : List α :=
  match l, n with
  | [], _ => []
  | x :: xs, 0 => f x :: xs
  | x :: xs, Nat.succ m => x :: modifyAt xs m f

theorem modifyAt_get_ne {α : Type} (l : List α) (n m : Nat) (f : α → α) (h : n ≠ m) :
    (modifyAt l n f).get? m = l.get? m := by
  induction l generalizing n m with
  | nil => simp [modifyAt]
  | cons x xs ih =>
    cases n with
    | zero =>
      cases m with
      | zero => exact absurd rfl h
      | succ m' => simp [modifyAt]
    | succ n' =>
      cases m with
      | zero => simp [modifyAt]
      | succ m' => simpa [modifyAt] using ih n' m' (fun hc => h (by rw [hc]))

theorem modifyAt_get_eq {α : Type} (l : List α) (n : Nat) (f : α → α) :
    (modifyAt l n f).get? n = (l.get? n).map f := by
  induction l generalizing n with
  | nil => simp [modifyAt]
  | cons x xs ih =>
    cases n with
    | zero => simp [modifyAt]
    | succ n' => simpa [modifyAt] using ih n'

/-- Cells strictly before the written range are untouched by `writeRange`,
provided the row actually extends to the start of the range. -/
theorem writeRange_frame_before (row : List String) (start : Nat) (vals : List String)
    (j : Nat) (hj : j < start) (hlen : start ≤ row.length) :
    (writeRange row start vals).get? j = row.get? j := by
  unfold writeRange
  rw [List.append_assoc]
  have hlt : j < (row.take start).length := by
    simpa [List.length_take, Nat.min_eq_left hlen] using hj
  rw [List.get?_append hlt]
  exact List.get?_take hj

theorem writeRange_length (row : List String) (start : Nat) (vals : List String)
    (h : start + vals.length ≤ row.length) :
    (writeRange row start vals).length = row.length := by
  unfold writeRange
  simp only [List.length_append, List.length_take, List.length_drop]
  omega

/-! ### String helpers from the worksheet service -/

/-- `WorksheetValidationService._extractLastName`: takes everything after the
first space (`indexOf(" ")`) of the trimmed name and trims that remainder;
non-string (`none`) or empty input yields `""`; a name without a space is
returned whole (trimmed). -/
def extractLastName (fullName : Option String) : String :=
  match fullName with
  | none => ""
  | some s =>
    if s = "" then ""
    else
      let t := strTrim s
      match t.toList.findIdx? (fun c => c = ' ') with
      | none => t
      | some i => strTrim (String.mk (t.toList.drop (i + 1)))

/-- The claim's reading of `_extractLastName`: everything after the first
space of the trimmed name, with no further trimming.  Used to compare the
spec sentence against the source. -/
def claimLastName (fullName : Option String) : String :=
  match fullName with
  | none => ""
  | some s =>
    if s = "" then ""
    else
      let t := strTrim s
      if t.toList.contains ' ' then
        String.mk ((t.toList.dropWhile (fun c => c ≠ ' ')).drop 1)
      else t

/-- The amended description: as `claimLastName`, but the remainder after the
first space is itself trimmed (exactly what `substring(...).trim()` does). -/
def amendedLastName (fullName : Option String) : String :=
  match fullName with
  | none => ""
  | some s =>
    if s = "" then ""
    else
      let t := strTrim s
      if t.toList.contains ' ' then
        strTrim (String.mk ((t.toList.dropWhile (fun c => c ≠ ' ')).drop 1))
      else t

theorem findIdx_space_none {α : Type} [DecidableEq α] (l : List α) (a : α)
    (h : l.contains a = false) : l.findIdx? (fun c => c = a) = none := by
  rw [List.findIdx?_eq_none_iff]
  intro x hx
  by_contra hcon
  have hxa : x = a := by simpa using hcon
  subst hxa
  have : l.contains x = true := List.contains_iff_exists_mem_beq.mpr ⟨x, hx, by simp⟩
  rw [this] at h
  exact Bool.noConfusion h

theorem findIdx_space_some {α : Type} [DecidableEq α] (l : List α) (a : α)
    (h : l.contains a = true) : ∃ i, l.findIdx? (fun c => c = a) = some i := by
  cases hf : l.findIdx? (fun c => c = a) with
  | some i => exact ⟨i, rfl⟩
  | none =>
    exfalso
    rw [List.findIdx?_eq_none_iff] at hf
    obtain ⟨x, hx, hxa⟩ := List.contains_iff_exists_mem_beq.mp h
    have : a = x := by simpa using hxa
    subst this
    have := hf a hx
    simp at this

theorem findIdx_drop_eq_dropWhile {α : Type} [DecidableEq α] (l : List α) (a : α) (i : Nat)
    (h : l.findIdx? (fun c => c = a) = some i) :
    l.drop (i + 1) = (l.dropWhile (fun c => c ≠ a)).drop 1 := by
  induction l generalizing i with
  | nil => simp [List.findIdx?] at h
  | cons x xs ih =>
    rw [List.findIdx?_cons] at h
    by_cases hx : x = a
    · rw [if_pos (by simpa using hx)] at h
      have hi : i = 0 := by
        have := Option.some.inj h
        omega
      subst hi
      simp [List.dropWhile_cons, hx]
    · rw [if_neg (by simpa using hx)] at h
      rw [List.findIdx?_succ] at h
      obtain ⟨j, hj, hji⟩ := Option.map_eq_some'.mp h
      subst hji
      have := ih j hj
      simp only [List.drop_succ_cons]
      rw [this]
      simp [List.dropWhile_cons, hx]

/-- The source's `_extractLastName` implements the amended description. -/
theorem extractLastName_eq_amended (fullName : Option String) :
    extractLastName fullName = amendedLastName fullName := by
  cases fullName with
  | none => rfl
  | some s =>
    unfold extractLastName amendedLastName
    by_cases hs : s = ""
    · simp [hs]
    · simp only [if_neg hs]
      by_cases hc : (strTrim s).toList.contains ' '
      · obtain ⟨i, hi⟩ := findIdx_space_some _ _ hc
        rw [hi, if_pos hc]
        show strTrim (String.mk ((strTrim s).toList.drop (i + 1))) =
          strTrim (String.mk (((strTrim s).toList.dropWhile (fun c => c ≠ ' ')).drop 1))
        rw [findIdx_drop_eq_dropWhile _ _ _ hi]
      · rw [findIdx_space_none _ _ (by simpa using hc), if_neg (by simpa using hc)]

/-! ### `_extractFileId` (Google URL patterns, regex translated to scans) -/

/-- The regex character class `[a-zA-Z0-9_-]`. -/
def isIdChar (c : Char) : Bool :=
  c.isAlpha || c.isDigit || c = '_' || c = '-'

/-- First match of the pattern "`pat` followed by one or more id chars":
returns the captured id-char run, scanning left to right as a regex engine
does. -/
def scanPattern (pat : List Char) : List Char → Option (List Char)
  | [] => none
  | c :: cs =>
    if List.isPrefixOf pat (c :: cs) then
      let capture := ((c :: cs).drop pat.length).takeWhile isIdChar
      if capture.isEmpty then scanPattern pat cs else some capture
    else scanPattern pat cs

/-- First match of `[?&]id=` followed by one or more id chars. -/
def scanIdParam : List Char → Option (List Char)
  | [] => none
  | c :: cs =>
    if (c = '?' || c = '&') && List.isPrefixOf "id=".toList cs then
      let capture := (cs.drop 3).takeWhile isIdChar
      if capture.isEmpty then scanIdParam cs else some capture
    else scanIdParam cs

/-- `WorksheetValidationService._extractFileId`: tries `/d/<id>`, then
`[?&]id=<id>`, then `/folders/<id>`; `none` if no pattern matches or the
input is empty (falsy). -/
def extractFileId (url : String) : Option String :=
  if url = "" then none
  else
    match scanPattern "/d/".toList url.toList with
    | some cap => some (String.mk cap)
    | none =>
      match scanIdParam url.toList with
      | some cap => some (String.mk cap)
      | none =>
        match scanPattern "/folders/".toList url.toList with
        | some cap => some (String.mk cap)
        | none => none

/-! ### Students and lookup helpers -/

/-- A roster entry as produced by `StudentDataService.getAllStudents`:
missing spreadsheet fields are modelled as `""`. -/
structure Student where
  name : String
  email : String
  url : String
  advisor : String
  deriving DecidableEq

/-- `ReviewNotificationService._getAdvisorForStudent`: find the student by
name in the roster; `none` when absent (the caller treats `""` as falsy
too). -/
def getAdvisorForStudent (roster : List Student) (studentName : String) : Option String :=
  match roster.find? (fun s => s.name == studentName) with
  | none => none
  | some s => some s.advisor

/-- `ReviewNotificationService._getAdvisorEmail`: fixed advisor → email map. -/
def getAdvisorEmail (advisorName : String) : Option String :=
  if advisorName = "Maggie" then some "maggie@summitacademicsupport.com"
  else if advisorName = "Jackie" then some "jackie@summitacademicsupport.com"
  else none

/-- `OutboundReviewService._getStudentEmail`: roster email first, else a
fallback read of the student spreadsheet's Home Page F5 (`homeF5`, indexed by
the student's url; `.error` models a thrown fetch, which is caught and treated
as no email).  A returned email is always nonempty. -/
def getStudentEmail (roster : List Student) (homeF5 : String → Except String String)
    (studentName : String) : Option String :=
  match roster.find? (fun s => s.name == studentName) with
  | none => none
  | some st =>
    if strTrim st.email ≠ "" then some (strTrim st.email)
    else if st.url ≠ "" then
      match homeF5 st.url with
      | .error _ => none
      | .ok v => if strTrim v ≠ "" then some (strTrim v) else none
    else none

/-! ### Dedup predicates of the three collectors -/

/-- Dedup key of a worksheet-queue row: `studentName|fileId|cellRow`
(columns 1, 4, 7). -/
def wvRowKey (row : List String) : String :=
  cell row 1 ++ "|" ++ cell row 4 ++ "|" ++ cell row 7

/-- `WorksheetValidationService._getExistingQueueItems`: the set (as a list)
of dedup keys of queue rows whose status is `pending` or `processed`; rows in
`error` (or any other) state contribute nothing. -/
def getExistingQueueItems (queue : List (List String)) : List String :=
  (queue.filter (fun row => cell row 9 == "pending" || cell row 9 == "processed")).map wvRowKey

/-- The review collector's duplicate check (`existingRequests.some (...)`):
a row with the same student name (col 1) and task title (col 2) whose status
(col 4) is `pending` or `notified`. -/
def rvAlreadyInQueue (existing : List (List String)) (studentName taskTitle : String) : Bool :=
  existing.any (fun row =>
    cell row 1 == studentName && cell row 2 == taskTitle &&
      (cell row 4 == "pending" || cell row 4 == "notified"))

/-- The outbound collector's duplicate check: same student name (col 1) and
task title (col 2) with status (col 5) `pending` or `notified`. -/
def obAlreadyInQueue (existing : List (List String)) (studentName taskTitle : String) : Bool :=
  existing.any (fun row =>
    cell row 1 == studentName && cell row 2 == taskTitle &&
      (cell row 5 == "pending" || cell row 5 == "notified"))

/-! ### The shared resumable batch-scan shape

All three collectors (`collectTasksWorksheets`, `collectReviewRequests`,
`collectOutboundReviews`) run the same batch loop: read the cursor, compute
`endIndex = min(start + batchSize, roster.length)`, iterate `i` from the
cursor to `endIndex` checking the execution-time guard before each student
(early-return persisting the cursor at `i`), catch per-student throws into the
error list with a skip count, and finally persist `0`/`endIndex` according to
whether the roster was exhausted.  `collectGo`/`collectBatch` embed that loop
once, parameterized by the queue state `Q` threaded through visits.  The
guard is an oracle `Nat → Bool` indexed by the roster position (modelling the
`Date.now()` comparison made before that student). -/

/-- Result of visiting one student: the updated queue state, the number of
items the visit recorded into the run results, and a thrown exception if
any. -/
structure VisitOut (Q : Type) where
  queue : Q
  found : Nat
  err : Option String

/-- Running totals of a collector invocation. -/
structure CollectAcc (Q : Type) where
  queue : Q
  scanned : Nat
  found : Nat
  skipped : Nat
  errors : List (String × String)

/-- What a collector invocation returns plus the cursor value it persisted. -/
structure CollectOutcome (Q : Type) where
  queue : Q
  scanned : Nat
  found : Nat
  skipped : Nat
  errors : List (String × String)
  cursor : Nat
  completed : Bool

/-- The batch loop body shared by the three collectors. -/
def collectGo {Q : Type} (guard : Nat → Bool) (visit : Nat → Q → VisitOut Q)
    (nameOf : Nat → String) (totalLen endIdx : Nat) :
    CollectAcc Q → List Nat → CollectOutcome Q
  | acc, [] =>
    if totalLen ≤ endIdx then
      ⟨acc.queue, acc.scanned, acc.found, acc.skipped, acc.errors, 0, true⟩
    else
      ⟨acc.queue, acc.scanned, acc.found, acc.skipped, acc.errors, endIdx, false⟩
  | acc, i :: rest =>
    if guard i then
      ⟨acc.queue, acc.scanned, acc.found, acc.skipped, acc.errors, i, false⟩
    else
      let out := visit i acc.queue
      match out.err with
      | none =>
        collectGo guard visit nameOf totalLen endIdx
          ⟨out.queue, acc.scanned + 1, acc.found + out.found, acc.skipped, acc.errors⟩ rest
      | some e =>
        collectGo guard visit nameOf totalLen endIdx
          ⟨out.queue, acc.scanned + 1, acc.found + out.found, acc.skipped + 1,
            acc.errors ++ [(nameOf i, e)]⟩ rest

/-- One collector invocation starting at cursor `startIndex`. -/
def collectBatch {Q : Type} (guard : Nat → Bool) (visit : Nat → Q → VisitOut Q)
    (nameOf : Nat → String) (totalLen startIndex batchSize : Nat) (q0 : Q) :
    CollectOutcome Q :=
  let endIdx := min (startIndex + batchSize) totalLen
  collectGo guard visit nameOf totalLen endIdx ⟨q0, 0, 0, 0, []⟩
    (List.range' startIndex (endIdx - startIndex))

/-- `allStudents[i].name`, used for error entries. -/
def studentNameOf (students : List Student) (i : Nat) : String :=
  ((students.get? i).map Student.name).getD ""

/-! ### Worksheet collector: `_scanStudentWorksheets` and `collectTasksWorksheets` -/

/-- A spreadsheet rich-text value: a possible hyperlink and the display
text. -/
structure RichText where
  linkUrl : Option String
  text : String
  deriving DecidableEq

/-- The plain-text fallback of the scan: accept the cell text as a URL only
when it mentions `google.com` (then trimmed); otherwise no URL. -/
def wvFallbackUrl (t : String) : String :=
  if t ≠ "" ∧ strContains t "google.com" then strTrim t else ""

/-- Resolve the file URL of one Tasks-sheet link cell: the rich-text link if
present and nonempty, else the plain-text fallback. -/
def wvFileUrl (rt : RichText) : String :=
  match rt.linkUrl with
  | some u => if u ≠ "" then u else wvFallbackUrl rt.text
  | none => wvFallbackUrl rt.text

/-- What the worksheet collector reads from one student's spreadsheet:
its id, the Tasks sheet's column-H rich-text cells from row 3 down (`none`
when there is no Tasks sheet), and the folder URL resolved from Home Page C6
(`""` when absent). -/
structure WVStudentDoc where
  spreadsheetId : String
  tasksRows : Option (List (Option RichText))
  folderUrl : String

/-- State threaded through a worksheet scan: the queue rows, the in-memory
dedup key set, and the `issuesFound` counter. -/
structure WVScan where
  queue : List (List String)
  existing : List String
  found : Nat

/-- The 13-column row `_scanStudentWorksheets` appends to `WorksheetQueue`. -/
def wvNewItem (now name email lastName fid fname folderId : String) (actualRow : Nat)
    (ssId : String) : List String :=
  [now, name, email, lastName, fid, fname, folderId, toString actualRow, ssId,
    "pending", "", "", ""]

/-- One row of the `_scanStudentWorksheets` loop (Tasks column H, start row
3): resolve a URL, extract the file id, dedup against the in-memory set,
fetch the filename (a throwing fetch is caught and the row skipped), and
enqueue a pending item unless the filename already starts with the last name
(case-insensitively); an enqueue also inserts the key into the set. -/
def wvScanRowStep (getFileName : String → Except String String)
    (now name email lastName folderId ssId : String)
    (rowIdx : Nat) (st : WVScan) (ort : Option RichText) : WVScan :=
  match ort with
  | none => st
  | some rt =>
    let fileUrl := wvFileUrl rt
    if fileUrl = "" then st
    else
      match extractFileId fileUrl with
      | none => st
      | some fid =>
        let actualRow := 3 + rowIdx
        let key := name ++ "|" ++ fid ++ "|" ++ toString actualRow
        if st.existing.contains key then st
        else
          match getFileName fid with
          | .error _ => st
          | .ok fname =>
            if strStartsWith (strToLower fname) (strToLower lastName) then st
            else
              { queue := st.queue ++
                  [wvNewItem now name email lastName fid fname folderId actualRow ssId],
                existing := key :: st.existing,
                found := st.found + 1 }

/-- The row loop of `_scanStudentWorksheets`. -/
def wvScanRows (getFileName : String → Except String String)
    (now name email lastName folderId ssId : String) :
    Nat → WVScan → List (Option RichText) → WVScan
  | _, st, [] => st
  | rowIdx, st, ort :: rest =>
    wvScanRows getFileName now name email lastName folderId ssId (rowIdx + 1)
      (wvScanRowStep getFileName now name email lastName folderId ssId rowIdx st ort) rest

/-- `_scanStudentWorksheets` for one student: open the spreadsheet (`openRes`;
a throw propagates to the caller's catch), return 0 issues when there is no
Tasks sheet, resolve the target folder id and the student's last name, then
run the row loop. -/
def scanStudentWorksheets (getFileName : String → Except String String) (now : String)
    (student : Student) (openRes : Except String WVStudentDoc)
    (q : List (List String)) (ex : List String) :
    VisitOut (List (List String) × List String) :=
  match openRes with
  | .error e => ⟨(q, ex), 0, some e⟩
  | .ok doc =>
    match doc.tasksRows with
    | none => ⟨(q, ex), 0, none⟩
    | some rows =>
      let targetFolderId := (extractFileId doc.folderUrl).getD ""
      let lastName := extractLastName (some student.name)
      let st := wvScanRows getFileName now student.name student.email lastName targetFolderId
        doc.spreadsheetId 0 ⟨q, ex, 0⟩ rows
      ⟨(st.queue, st.existing), st.found, none⟩

/-- External collaborators of the worksheet collector. -/
structure WVEnv where
  guard : Nat → Bool
  openStudent : String → Except String WVStudentDoc
  getFileName : String → Except String String
  now : String

/-- The worksheet collector's per-student visit (roster position `i`). -/
def wvVisit (env : WVEnv) (students : List Student) (i : Nat)
    (st : List (List String) × List String) : VisitOut (List (List String) × List String) :=
  match students.get? i with
  | none => ⟨st, 0, none⟩
  | some s => scanStudentWorksheets env.getFileName env.now s (env.openStudent s.url) st.1 st.2

/-- `WorksheetValidationService.collectTasksWorksheets`: batch loop over the
roster with the dedup set initialized once from the existing queue. -/
def collectTasksWorksheets (env : WVEnv) (students : List Student)
    (startIndex batchSize : Nat) (q0 : List (List String)) :
    CollectOutcome (List (List String) × List String) :=
  collectBatch env.guard (wvVisit env students) (studentNameOf students)
    students.length startIndex batchSize (q0, getExistingQueueItems q0)

/-! ### Review collector: `collectReviewRequests` -/

/-- One entry of `ReviewNotificationService.STUDENT_SHEET_CONFIGS`. -/
structure RVSheetConfig where
  sheetName : String
  startRow : Nat
  statusColumn : Nat
  titleColumn : Nat
  linkColumn : Option Int
  needsReviewValue : String
  hasLinks : Bool

/-- `ReviewNotificationService.STUDENT_SHEET_CONFIGS` verbatim (`-1` is the
special "Home Page supplemental link" code, `none` models `null`). -/
def reviewSheetConfigs : List RVSheetConfig :=
  [⟨"Tasks", 3, 3, 4, some 8, "needs review", true⟩,
   ⟨"ApplicationTracker", 4, 5, 4, none, "needs review", false⟩,
   ⟨"ApplicationTracker", 14, 38, 4, some (-1), "needs review", true⟩]

/-- A sheet of a student spreadsheet, as the review collector reads it:
`cellAt row col` is `getRange(row, col).getValue().toString()` (empty cell =
`""`), `richAt` the rich-text variant. -/
structure RVSheet where
  lastRow : Nat
  cellAt : Nat → Nat → String
  richAt : Nat → Nat → Option RichText

/-- One student's spreadsheet for the review collector: `getSheet` models
`getSheetByName`, `homePageC8` the Home Page C8 rich-text cell (`none` when
there is no Home Page sheet, in which case the source's unguarded
`homeSheet.getRange(...)` throws). -/
structure RVStudentDoc where
  getSheet : String → Option RVSheet
  homePageC8 : Option (Option RichText)

/-- JavaScript truthiness of `sheetConfig.linkColumn` (`null` and `0` are
falsy; `-1` and `8` are truthy). -/
def linkColTruthy : Option Int → Bool
  | none => false
  | some v => v != 0

/-- Build `linkRichText` for one sheet config: the fixed Home Page C8 cell
for the `-1` code (throwing when there is no Home Page), else the link
column range; `none` when this config reads no links. -/
def rvBuildLinks (doc : RVStudentDoc) (sheet : RVSheet) (cfg : RVSheetConfig)
    (numRows : Nat) : Except String (Option (List (List (Option RichText)))) :=
  if cfg.hasLinks && linkColTruthy cfg.linkColumn then
    match cfg.linkColumn with
    | some c =>
      if c = -1 then
        match doc.homePageC8 with
        | none => .error "TypeError: Cannot read properties of null"
        | some rt => .ok (some [[rt]])
      else
        .ok (some ((List.range' cfg.startRow numRows).map (fun r => [sheet.richAt r c.toNat])))
    | none => .ok none
  else .ok none

/-- `linkRichText[rowIdx][0]` plus the link/text extraction: indexing past
the end of `linkRichText` models the JavaScript `undefined[0]` TypeError
(possible for the single-cell Home Page range). -/
def rvExtractLink (cfg : RVSheetConfig) (linkRT : Option (List (List (Option RichText))))
    (rowIdx : Nat) : Except String String :=
  match linkRT with
  | none => .ok ""
  | some rows =>
    if cfg.hasLinks then
      match rows.get? rowIdx with
      | none => .error "TypeError: Cannot read properties of undefined"
      | some inner =>
        match inner.get? 0 with
        | none => .ok ""
        | some none => .ok ""
        | some (some rt) =>
          match rt.linkUrl with
          | some u =>
            if u ≠ "" then .ok u
            else if rt.text ≠ "" then .ok (strTrim rt.text) else .ok ""
          | none => if rt.text ≠ "" then .ok (strTrim rt.text) else .ok ""
    else .ok ""

/-- The inner row loop of `collectReviewRequests` for one sheet config:
stop after 20 consecutive fully-empty rows; skip rows whose status is not
`needs review` (case-insensitive, trimmed) or whose title is empty; dedup
against the per-student queue snapshot; append
`[now, name, title, link, "pending", ""]` otherwise.  Note the snapshot is
NOT updated on append. -/
def rvScanRows (snapshot : List (List String)) (name now : String) (cfg : RVSheetConfig)
    (linkRT : Option (List (List (Option RichText)))) :
    Nat → Nat → List (String × String) → List (List String) → Nat →
      List (List String) × Nat × Option String
  | _, _, [], q, n => (q, n, none)
  | rowIdx, consec, (status, title) :: rest, q, n =>
    if status = "" ∧ title = "" then
      if 20 ≤ consec + 1 then (q, n, none)
      else rvScanRows snapshot name now cfg linkRT (rowIdx + 1) (consec + 1) rest q n
    else
      if strToLower (strTrim status) ≠ cfg.needsReviewValue then
        rvScanRows snapshot name now cfg linkRT (rowIdx + 1) 0 rest q n
      else if title = "" then
        rvScanRows snapshot name now cfg linkRT (rowIdx + 1) 0 rest q n
      else
        let taskTitle := strTrim title
        match rvExtractLink cfg linkRT rowIdx with
        | .error e => (q, n, some e)
        | .ok taskLink =>
          if rvAlreadyInQueue snapshot name taskTitle then
            rvScanRows snapshot name now cfg linkRT (rowIdx + 1) 0 rest q n
          else
            rvScanRows snapshot name now cfg linkRT (rowIdx + 1) 0 rest
              (q ++ [[now, name, taskTitle, taskLink, "pending", ""]]) (n + 1)

/-- The per-config loop of `collectReviewRequests`: skip missing sheets and
sheets with no data rows, build the link range (a throw aborts this
student), and scan the rows of the zip of the status and title columns. -/
def rvConfigLoop (doc : RVStudentDoc) (snapshot : List (List String)) (name now : String) :
    List (List String) → Nat → List RVSheetConfig →
      List (List String) × Nat × Option String
  | q, n, [] => (q, n, none)
  | q, n, cfg :: rest =>
    match doc.getSheet cfg.sheetName with
    | none => rvConfigLoop doc snapshot name now q n rest
    | some sheet =>
      if sheet.lastRow < cfg.startRow then rvConfigLoop doc snapshot name now q n rest
      else
        let numRows := sheet.lastRow - cfg.startRow + 1
        let statusData :=
          (List.range' cfg.startRow numRows).map (fun r => sheet.cellAt r cfg.statusColumn)
        let titleData :=
          (List.range' cfg.startRow numRows).map (fun r => sheet.cellAt r cfg.titleColumn)
        match rvBuildLinks doc sheet cfg numRows with
        | .error e => (q, n, some e)
        | .ok linkRT =>
          match rvScanRows snapshot name now cfg linkRT 0 0 (statusData.zip titleData) q n with
          | (q', n', some e) => (q', n', some e)
          | (q', n', none) => rvConfigLoop doc snapshot name now q' n' rest

/-- One student's visit in `collectReviewRequests`: open the spreadsheet,
take the duplicate-check snapshot of the queue (re-read per student, with
the `Math.max(lastRow - 1, 1)` quirk producing one blank row when the queue
is empty), then loop over the sheet configs.  Items appended by earlier
configs or rows of the same student are NOT added to the snapshot. -/
def rvVisitStudent (student : Student) (openRes : Except String RVStudentDoc)
    (now : String) (q : List (List String)) : VisitOut (List (List String)) :=
  match openRes with
  | .error e => ⟨q, 0, some e⟩
  | .ok doc =>
    let snapshot := if q.isEmpty then [List.replicate 6 ""] else q
    match rvConfigLoop doc snapshot student.name now q 0 reviewSheetConfigs with
    | (q', n, err) => ⟨q', n, err⟩

/-- External collaborators of the review collector. -/
structure RVEnv where
  guard : Nat → Bool
  openStudent : String → Except String RVStudentDoc
  now : String

/-- The review collector's per-student visit. -/
def rvVisit (env : RVEnv) (students : List Student) (i : Nat)
    (q : List (List String)) : VisitOut (List (List String)) :=
  match students.get? i with
  | none => ⟨q, 0, none⟩
  | some s => rvVisitStudent s (env.openStudent s.url) env.now q

/-- `ReviewNotificationService.collectReviewRequests`: the shared batch loop
over the roster. -/
def collectReviewRequests (env : RVEnv) (students : List Student)
    (startIndex batchSize : Nat) (q0 : List (List String)) :
    CollectOutcome (List (List String)) :=
  collectBatch env.guard (rvVisit env students) (studentNameOf students)
    students.length startIndex batchSize q0

/-! ### Worksheet processor: `_processWorksheetItem` and `processTasksWorksheets` -/

/-- Outcomes of the external file-store calls made for one queue item
(`DriveApp.getFileById`, `getFolderById`, `makeCopy` — whose success carries
the new file's URL — `addEditor`, and the originating-cell update).  An
`.error` models a thrown call. -/
structure RenameEffects where
  getFileResult : Except String Unit
  getFolderResult : Except String Unit
  copyResult : Except String String
  shareResult : Except String Unit
  cellUpdateResult : Except String Unit

/-- The value `_processWorksheetItem` returns (it can also throw, modelled by
the surrounding `Except`). -/
inductive WItemResult where
  | success (newFileUrl : String)
  | failure (error : String)
  deriving DecidableEq

/-- `WorksheetValidationService._processWorksheetItem`: validate the file and
folder ids, get the file and folder and make the renamed copy (throws
propagate), then best-effort share (only when the student email is nonempty)
and best-effort cell update — failures of those two last steps are caught and
only logged, so the item still succeeds with the new file URL. -/
def processWorksheetItem (eff : RenameEffects) (row : List String) :
    Except String WItemResult :=
  let studentEmail := cell row 2
  let originalFileId := cell row 4
  let targetFolderId := cell row 6
  if originalFileId = "" then .ok (.failure "Missing original file ID")
  else if targetFolderId = "" then .ok (.failure "Missing target folder ID")
  else
    match eff.getFileResult with
    | .error e => .error e
    | .ok _ =>
      match eff.getFolderResult with
      | .error e => .error e
      | .ok _ =>
        match eff.copyResult with
        | .error e => .error e
        | .ok newFileUrl =>
          match (if studentEmail ≠ "" then eff.shareResult else Except.ok ()),
              eff.cellUpdateResult with
          | _, _ => .ok (.success newFileUrl)

/-- How `processTasksWorksheets` rewrites a queue row after processing it:
columns 10-13 (1-based) become `[processed, now, url, ""]` on success and
`[error, now, "", message]` on a returned failure or a thrown exception. -/
def wvApplyOutcome (eff : RenameEffects) (now : String) (row : List String) : List String :=
  match processWorksheetItem eff row with
  | .ok (.success url) => writeRange row 9 ["processed", now, url, ""]
  | .ok (.failure e) => writeRange row 9 ["error", now, "", e]
  | .error e => writeRange row 9 ["error", now, "", e]

/-- Counts and error list returned by `processTasksWorksheets`; error entries
are `(studentName, fileName, message)`. -/
structure WVRes where
  processed : Nat
  success : Nat
  errors : List (String × String × String)
  deriving DecidableEq

/-- How one processed item adds to the run results: `processed` always
increments; success increments `success`, a returned failure or a throw adds
a `(studentName, fileName, message)` error entry. -/
def wvAddRes (outcome : Except String WItemResult) (row : List String) (r : WVRes) : WVRes :=
  match outcome with
  | .ok (.success _) => ⟨r.processed + 1, r.success + 1, r.errors⟩
  | .ok (.failure e) => ⟨r.processed + 1, r.success, (cell row 1, cell row 5, e) :: r.errors⟩
  | .error e => ⟨r.processed + 1, r.success, (cell row 1, cell row 5, e) :: r.errors⟩

/-- The row loop of `processTasksWorksheets`: check the guard before each
data row (a trip breaks, leaving the rest of the sheet untouched), skip rows
whose status is not exactly `pending`, and process the rest, updating the
row in place.  `eff i` gives the external-call outcomes for data row `i`. -/
def wvProcessGo (eff : Nat → RenameEffects) (guard : Nat → Bool) (now : String) :
    Nat → List (List String) → List (List String) × WVRes
  | _, [] => ([], ⟨0, 0, []⟩)
  | i, row :: rest =>
    if guard i then (row :: rest, ⟨0, 0, []⟩)
    else if cell row 9 ≠ "pending" then
      let r := wvProcessGo eff guard now (i + 1) rest
      (row :: r.1, r.2)
    else
      let r := wvProcessGo eff guard now (i + 1) rest
      (wvApplyOutcome (eff i) now row :: r.1,
        wvAddRes (processWorksheetItem (eff i) row) row r.2)

/-- `WorksheetValidationService.processTasksWorksheets` on the data rows of
the `WorksheetQueue` sheet. -/
def processTasksWorksheets (eff : Nat → RenameEffects) (guard : Nat → Bool)
    (now : String) (data : List (List String)) : List (List String) × WVRes :=
  wvProcessGo eff guard now 0 data

/-! ### Review processor: `processReviewRequests` -/

/-- One entry of the `pendingRequests` array built by
`processReviewRequests`. -/
structure RVRequest where
  rowIndex : Nat
  actualRow : Nat
  timestamp : String
  studentName : String
  reviewType : String
  notes : String
  advisor : String
  deriving DecidableEq

/-- The filter loop of `processReviewRequests` (step 3): keep rows whose
status is `pending` or unset, with a nonempty student name and a truthy
advisor lookup; others are skipped without any status write. -/
def rvFilterGo (advisorOf : String → Option String) :
    Nat → List (List String) → List RVRequest
  | _, [] => []
  | i, row :: rest =>
    let status := cell row 4
    if status = "" ∨ status = "pending" then
      let studentName := cell row 1
      if studentName = "" then rvFilterGo advisorOf (i + 1) rest
      else
        match advisorOf studentName with
        | none => rvFilterGo advisorOf (i + 1) rest
        | some adv =>
          if adv = "" then rvFilterGo advisorOf (i + 1) rest
          else
            { rowIndex := i, actualRow := i + 2, timestamp := cell row 0,
              studentName := studentName,
              reviewType := if cell row 2 = "" then "General" else cell row 2,
              notes := cell row 3, advisor := adv } :: rvFilterGo advisorOf (i + 1) rest
    else rvFilterGo advisorOf (i + 1) rest

/-- `pendingRequests` for a queue data block. -/
def rvFilterPending (advisorOf : String → Option String) (data : List (List String)) :
    List RVRequest :=
  rvFilterGo advisorOf 0 data

/-- The grouping key used by `_groupByAdvisor` (`request.advisor ||
"Unknown"`). -/
def advisorKey (r : RVRequest) : String :=
  if r.advisor = "" then "Unknown" else r.advisor

/-- Insert a request into the group list under key `k`, preserving the
first-seen key order and per-key insertion order of a JavaScript object. -/
def addToGroup (k : String) (r : RVRequest) :
    List (String × List RVRequest) → List (String × List RVRequest)
  | [] => [(k, [r])]
  | (k', rs) :: rest =>
    if k' = k then (k', rs ++ [r]) :: rest else (k', rs) :: addToGroup k r rest

/-- `ReviewNotificationService._groupByAdvisor`. -/
def groupByAdvisor (reqs : List RVRequest) : List (String × List RVRequest) :=
  reqs.foldl (fun acc r => addToGroup (advisorKey r) r acc) []

/-- `_sendAdvisorNotification` as (success, message): fails with no send when
the advisor has no email in the fixed map; otherwise the outcome of the
`MailApp.sendEmail` call (`mailSend`, keyed by advisor). -/
def sendAdvisorNotification (mailSend : String → Except String Unit)
    (advisor : String) : Bool × String :=
  match getAdvisorEmail advisor with
  | none => (false, "No email found for advisor: " ++ advisor)
  | some _ =>
    match mailSend advisor with
    | .ok _ => (true, "Notified " ++ advisor)
    | .error e => (false, e)

/-- One entry of `rowsToUpdate` (a 1-based sheet row plus the two cells to
write). -/
structure RVUpdate where
  row : Nat
  status : String
  notifiedAt : String
  deriving DecidableEq

/-- Counts and error list of `processReviewRequests` /
`processOutboundReviews`. -/
structure RVRes where
  processed : Nat
  notified : Nat
  errors : List (String × String)
  deriving DecidableEq

/-- The per-advisor loop of `processReviewRequests` (steps 4-5): guard check
before each group, one notification attempt per group; on success every
request of the group is queued for a `notified`/`now` status write and
counted, on failure an error entry is recorded and no status write is
queued.  Also returns the successfully sent notifications as
(advisor, list of subjects). -/
def rvSendLoop (mailSend : String → Except String Unit) (guard : Nat → Bool) (now : String) :
    Nat → List (String × List RVRequest) →
      List RVUpdate × List (String × List String) × RVRes
  | _, [] => ([], [], ⟨0, 0, []⟩)
  | gi, (advisor, requests) :: rest =>
    if guard gi then ([], [], ⟨0, 0, []⟩)
    else
      let sr := sendAdvisorNotification mailSend advisor
      let r := rvSendLoop mailSend guard now (gi + 1) rest
      if sr.1 then
        (requests.map (fun req => ⟨req.actualRow, "notified", now⟩) ++ r.1,
         (advisor, requests.map RVRequest.reviewType) :: r.2.1,
         ⟨r.2.2.processed + requests.length, r.2.2.notified + requests.length, r.2.2.errors⟩)
      else
        (r.1, r.2.1,
         ⟨r.2.2.processed + requests.length, r.2.2.notified, (advisor, sr.2) :: r.2.2.errors⟩)

/-- Step 6 of `processReviewRequests`: apply the queued status writes, each
`getRange(row, 5, 1, 2).setValues([[status, notifiedAt]])` (columns 5-6,
i.e. 0-based cells 4-5 of data row `row - 2`). -/
def applyRVUpdates (data : List (List String)) (updates : List RVUpdate) :
    List (List String) :=
  updates.foldl
    (fun d u => modifyAt d (u.row - 2) (fun row => writeRange row 4 [u.status, u.notifiedAt]))
    data

/-- `ReviewNotificationService.processReviewRequests` on the data rows of the
`ReviewQueue` sheet: filter, group by advisor, send per group, batch-update.
Returns (updated data, sent notifications, results). -/
def processReviewRequests (roster : List Student) (mailSend : String → Except String Unit)
    (guard : Nat → Bool) (now : String) (data : List (List String)) :
    List (List String) × List (String × List String) × RVRes :=
  let reqs := rvFilterPending (getAdvisorForStudent roster) data
  if reqs.isEmpty then (data, [], ⟨0, 0, []⟩)
  else
    let groups := groupByAdvisor reqs
    let r := rvSendLoop mailSend guard now 0 groups
    (applyRVUpdates data r.1, r.2.1, r.2.2)

/-! ### Outbound processor: selection and status writes -/

/-- One entry of the `pendingReviews` array built by
`processOutboundReviews`. -/
structure OBReview where
  rowIndex : Nat
  actualRow : Nat
  timestamp : String
  studentName : String
  taskTitle : String
  feedbackText : String
  documentLink : String
  studentEmail : String
  deriving DecidableEq

/-- The filter loop of `processOutboundReviews` (step 3): status `pending` or
unset, nonempty student name, and a successful student-email resolution. -/
def obFilterGo (emailOf : String → Option String) :
    Nat → List (List String) → List OBReview
  | _, [] => []
  | i, row :: rest =>
    let status := cell row 5
    if status = "" ∨ status = "pending" then
      let studentName := cell row 1
      if studentName = "" then obFilterGo emailOf (i + 1) rest
      else
        match emailOf studentName with
        | none => obFilterGo emailOf (i + 1) rest
        | some em =>
          { rowIndex := i, actualRow := i + 2, timestamp := cell row 0,
            studentName := studentName,
            taskTitle := if cell row 2 = "" then "General" else cell row 2,
            feedbackText := cell row 3, documentLink := cell row 4,
            studentEmail := em } :: obFilterGo emailOf (i + 1) rest
    else obFilterGo emailOf (i + 1) rest

/-- `pendingReviews` for a queue data block. -/
def obFilterPending (emailOf : String → Option String) (data : List (List String)) :
    List OBReview :=
  obFilterGo emailOf 0 data

/-- Step 5 of `processOutboundReviews`: apply the queued status writes, each
`getRange(row, 6, 1, 2).setValues([[status, notifiedAt]])` (columns 6-7,
i.e. 0-based cells 5-6 of data row `row - 2`). -/
def applyOBUpdates (data : List (List String)) (updates : List RVUpdate) :
    List (List String) :=
  updates.foldl
    (fun d u => modifyAt d (u.row - 2) (fun row => writeRange row 5 [u.status, u.notifiedAt]))
    data

/-! ### Helper lemmas: guard-stop behaviour of the shared batch loop -/

theorem collectGo_guard_stop {Q : Type} (guard : Nat → Bool) (visit : Nat → Q → VisitOut Q)
    (nameOf : Nat → String) (totalLen endIdx : Nat) :
    ∀ (k s n : Nat) (acc : CollectAcc Q),
      k < n →
      (∀ j, j < k → guard (s + j) = false) →
      guard (s + k) = true →
      (collectGo guard visit nameOf totalLen endIdx acc (List.range' s n)).scanned
          = acc.scanned + k ∧
      (collectGo guard visit nameOf totalLen endIdx acc (List.range' s n)).cursor = s + k ∧
      (collectGo guard visit nameOf totalLen endIdx acc (List.range' s n)).completed = false := by
  intro k
  induction k with
  | zero =>
    intro s n acc hn _ hat
    cases n with
    | zero => omega
    | succ m =>
      rw [List.range'_succ]
      have : guard s = true := by simpa using hat
      simp [collectGo, this]
  | succ k ih =>
    intro s n acc hn hbefore hat
    cases n with
    | zero => omega
    | succ m =>
      rw [List.range'_succ]
      have hg : guard s = false := by simpa using hbefore 0 (Nat.succ_pos k)
      have hk : k < m := by omega
      have hb : ∀ j, j < k → guard (s + 1 + j) = false := by
        intro j hj
        have := hbefore (j + 1) (by omega)
        simpa [Nat.add_assoc, Nat.add_comm 1 j] using this
      have ha : guard (s + 1 + k) = true := by
        have := hat
        simpa [Nat.add_assoc, Nat.add_comm 1 k] using this
      cases hout : (visit s acc.queue).err with
      | none =>
        have := ih (s + 1) m
          ⟨(visit s acc.queue).queue, acc.scanned + 1, acc.found + (visit s acc.queue).found,
            acc.skipped, acc.errors⟩ hk hb ha
        simp only [collectGo, hg, Bool.false_eq_true, if_false, hout] at *
        refine ⟨?_, ?_, ?_⟩
        · rw [this.1]; omega
        · rw [this.2.1]; omega
        · exact this.2.2
      | some e =>
        have := ih (s + 1) m
          ⟨(visit s acc.queue).queue, acc.scanned + 1, acc.found + (visit s acc.queue).found,
            acc.skipped + 1, acc.errors ++ [(nameOf s, e)]⟩ hk hb ha
        simp only [collectGo, hg, Bool.false_eq_true, if_false, hout] at *
        refine ⟨?_, ?_, ?_⟩
        · rw [this.1]; omega
        · rw [this.2.1]; omega
        · exact this.2.2

theorem collectBatch_guard_stop {Q : Type} (guard : Nat → Bool) (visit : Nat → Q → VisitOut Q)
    (nameOf : Nat → String) (totalLen startIndex batchSize k : Nat) (q0 : Q)
    (hrem : startIndex + batchSize ≤ totalLen) (hk : k < batchSize)
    (hb : ∀ j, j < k → guard (startIndex + j) = false)
    (ha : guard (startIndex + k) = true) :
    (collectBatch guard visit nameOf totalLen startIndex batchSize q0).scanned = k ∧
    (collectBatch guard visit nameOf totalLen startIndex batchSize q0).cursor
      = startIndex + k ∧
    (collectBatch guard visit nameOf totalLen startIndex batchSize q0).completed = false := by
  have hmin : min (startIndex + batchSize) totalLen = startIndex + batchSize := by omega
  have hsub : startIndex + batchSize - startIndex = batchSize := by omega
  have h := collectGo_guard_stop guard visit nameOf totalLen
    (min (startIndex + batchSize) totalLen) k startIndex batchSize ⟨q0, 0, 0, 0, []⟩ hk hb ha
  unfold collectBatch
  simp only [hmin, hsub]
  rw [hmin] at h
  exact ⟨by simpa using h.1, h.2.1, h.2.2⟩

/-! ### Claim C4 -/

/-- C4: when a Collector run starts at cursor `startIndex` with at least
`batchSize` students remaining and the execution-time guard first reports
exceeded before the `(k+1)`-st student of the run (`k < batchSize`), the run
returns immediately with exactly `k` students scanned and persists the
cursor `startIndex + k` (and does not report a completed pass).  Stated for
the worksheet and review collectors, whose batch loops share this shape. -/
theorem collector_time_guard_partial_batch (wenv : WVEnv) (renv : RVEnv)
    (students : List Student) (startIndex batchSize k : Nat)
    (q0w : List (List String)) (q0r : List (List String))
    (hrem : startIndex + batchSize ≤ students.length)
    (hk : k < batchSize)
    (hwb : ∀ j, j < k → wenv.guard (startIndex + j) = false)
    (hwa : wenv.guard (startIndex + k) = true)
    (hrb : ∀ j, j < k → renv.guard (startIndex + j) = false)
    (hra : renv.guard (startIndex + k) = true) :
    ((collectTasksWorksheets wenv students startIndex batchSize q0w).scanned = k ∧
      (collectTasksWorksheets wenv students startIndex batchSize q0w).cursor
        = startIndex + k ∧
      (collectTasksWorksheets wenv students startIndex batchSize q0w).completed = false) ∧
    ((collectReviewRequests renv students startIndex batchSize q0r).scanned = k ∧
      (collectReviewRequests renv students startIndex batchSize q0r).cursor
        = startIndex + k ∧
      (collectReviewRequests renv students startIndex batchSize q0r).completed = false) :=
  ⟨collectBatch_guard_stop wenv.guard (wvVisit wenv students) (studentNameOf students)
      students.length startIndex batchSize k (q0w, getExistingQueueItems q0w) hrem hk hwb hwa,
    collectBatch_guard_stop renv.guard (rvVisit renv students) (studentNameOf students)
      students.length startIndex batchSize k q0r hrem hk hrb hra⟩

theorem collector_time_guard_partial_batch_witness :
    ((collectTasksWorksheets
        ⟨fun n => 1 ≤ n, fun _ => .error "x", fun _ => .error "x", "T"⟩
        [⟨"A", "", "uA", ""⟩, ⟨"B", "", "uB", ""⟩] 0 2 []).scanned = 1 ∧
      (collectTasksWorksheets
        ⟨fun n => 1 ≤ n, fun _ => .error "x", fun _ => .error "x", "T"⟩
        [⟨"A", "", "uA", ""⟩, ⟨"B", "", "uB", ""⟩] 0 2 []).cursor = 0 + 1 ∧
      (collectTasksWorksheets
        ⟨fun n => 1 ≤ n, fun _ => .error "x", fun _ => .error "x", "T"⟩
        [⟨"A", "", "uA", ""⟩, ⟨"B", "", "uB", ""⟩] 0 2 []).completed = false) ∧
    ((collectReviewRequests
        ⟨fun n => 1 ≤ n, fun _ => .error "x", "T"⟩
        [⟨"A", "", "uA", ""⟩, ⟨"B", "", "uB", ""⟩] 0 2 []).scanned = 1 ∧
      (collectReviewRequests
        ⟨fun n => 1 ≤ n, fun _ => .error "x", "T"⟩
        [⟨"A", "", "uA", ""⟩, ⟨"B", "", "uB", ""⟩] 0 2 []).cursor = 0 + 1 ∧
      (collectReviewRequests
        ⟨fun n => 1 ≤ n, fun _ => .error "x", "T"⟩
        [⟨"A", "", "uA", ""⟩, ⟨"B", "", "uB", ""⟩] 0 2 []).completed = false) :=
  collector_time_guard_partial_batch
    ⟨fun n => 1 ≤ n, fun _ => .error "x", fun _ => .error "x", "T"⟩
    ⟨fun n => 1 ≤ n, fun _ => .error "x", "T"⟩
    [⟨"A", "", "uA", ""⟩, ⟨"B", "", "uB", ""⟩] 0 2 1 [] []
    (by decide) (by decide)
    (by intro j hj; have hj0 : j = 0 := (by omega); subst hj0; decide) (by decide)
    (by intro j hj; have hj0 : j = 0 := (by omega); subst hj0; decide) (by decide)

/-! ### Claim C6 -/

/-- C6: the dedup checks of the three collectors treat a candidate as a
duplicate exactly when some existing queue row with the same dedup key has
status `pending` or `notified`/`processed`; consequently a row whose status
is `error` never blocks (re-)insertion on its own. -/
theorem dedup_only_pending_or_done_blocks (q : List (List String)) (n t k : String) :
    (rvAlreadyInQueue q n t = true ↔
      ∃ row ∈ q, cell row 1 = n ∧ cell row 2 = t ∧
        (cell row 4 = "pending" ∨ cell row 4 = "notified")) ∧
    (obAlreadyInQueue q n t = true ↔
      ∃ row ∈ q, cell row 1 = n ∧ cell row 2 = t ∧
        (cell row 5 = "pending" ∨ cell row 5 = "notified")) ∧
    ((getExistingQueueItems q).contains k = true ↔
      ∃ row ∈ q, (cell row 9 = "pending" ∨ cell row 9 = "processed") ∧ wvRowKey row = k) ∧
    ((∀ row ∈ q, cell row 1 = n → cell row 2 = t → cell row 4 = "error") →
      rvAlreadyInQueue q n t = false) ∧
    ((∀ row ∈ q, cell row 1 = n → cell row 2 = t → cell row 5 = "error") →
      obAlreadyInQueue q n t = false) ∧
    ((∀ row ∈ q, wvRowKey row = k → cell row 9 = "error") →
      (getExistingQueueItems q).contains k = false) := by
  have hrv : rvAlreadyInQueue q n t = true ↔
      ∃ row ∈ q, cell row 1 = n ∧ cell row 2 = t ∧
        (cell row 4 = "pending" ∨ cell row 4 = "notified") := by
    unfold rvAlreadyInQueue
    rw [List.any_eq_true]
    constructor
    · rintro ⟨row, hmem, hp⟩
      simp only [Bool.and_eq_true, Bool.or_eq_true, beq_iff_eq] at hp
      exact ⟨row, hmem, hp.1.1, hp.1.2, hp.2⟩
    · rintro ⟨row, hmem, h1, h2, h3⟩
      refine ⟨row, hmem, ?_⟩
      simp only [Bool.and_eq_true, Bool.or_eq_true, beq_iff_eq]
      exact ⟨⟨h1, h2⟩, h3⟩
  have hob : obAlreadyInQueue q n t = true ↔
      ∃ row ∈ q, cell row 1 = n ∧ cell row 2 = t ∧
        (cell row 5 = "pending" ∨ cell row 5 = "notified") := by
    unfold obAlreadyInQueue
    rw [List.any_eq_true]
    constructor
    · rintro ⟨row, hmem, hp⟩
      simp only [Bool.and_eq_true, Bool.or_eq_true, beq_iff_eq] at hp
      exact ⟨row, hmem, hp.1.1, hp.1.2, hp.2⟩
    · rintro ⟨row, hmem, h1, h2, h3⟩
      refine ⟨row, hmem, ?_⟩
      simp only [Bool.and_eq_true, Bool.or_eq_true, beq_iff_eq]
      exact ⟨⟨h1, h2⟩, h3⟩
  have hwv : (getExistingQueueItems q).contains k = true ↔
      ∃ row ∈ q, (cell row 9 = "pending" ∨ cell row 9 = "processed") ∧ wvRowKey row = k := by
    unfold getExistingQueueItems
    rw [List.contains_iff_exists_mem_beq]
    constructor
    · rintro ⟨key, hk, hbeq⟩
      rw [List.mem_map] at hk
      obtain ⟨row, hrow, rfl⟩ := hk
      rw [List.mem_filter] at hrow
      have hst := hrow.2
      simp only [Bool.or_eq_true, beq_iff_eq] at hst
      exact ⟨row, hrow.1, hst, (beq_iff_eq.mp hbeq).symm⟩
    · rintro ⟨row, hmem, hst, hkey⟩
      refine ⟨wvRowKey row, List.mem_map.mpr ⟨row, List.mem_filter.mpr ⟨hmem, ?_⟩, rfl⟩, ?_⟩
      · simp only [Bool.or_eq_true, beq_iff_eq]
        exact hst
      · exact beq_iff_eq.mpr hkey.symm
  refine ⟨hrv, hob, hwv, ?_, ?_, ?_⟩
  · intro herr
    cases hbool : rvAlreadyInQueue q n t with
    | false => rfl
    | true =>
      obtain ⟨row, hmem, h1, h2, h3⟩ := hrv.mp hbool
      have := herr row hmem h1 h2
      rcases h3 with h3 | h3 <;> rw [this] at h3 <;> exact absurd h3 (by decide)
  · intro herr
    cases hbool : obAlreadyInQueue q n t with
    | false => rfl
    | true =>
      obtain ⟨row, hmem, h1, h2, h3⟩ := hob.mp hbool
      have := herr row hmem h1 h2
      rcases h3 with h3 | h3 <;> rw [this] at h3 <;> exact absurd h3 (by decide)
  · intro herr
    cases hbool : (getExistingQueueItems q).contains k with
    | false => rfl
    | true =>
      obtain ⟨row, hmem, hst, hkey⟩ := hwv.mp hbool
      have := herr row hmem hkey
      rcases hst with hst | hst <;> rw [this] at hst <;> exact absurd hst (by decide)

theorem dedup_only_pending_or_done_blocks_witness :
    ((rvAlreadyInQueue [["t", "Jane", "Essay", "", "error", ""]] "Jane" "Essay" = true ↔
      ∃ row ∈ [["t", "Jane", "Essay", "", "error", ""]], cell row 1 = "Jane" ∧
        cell row 2 = "Essay" ∧ (cell row 4 = "pending" ∨ cell row 4 = "notified")) ∧
    (obAlreadyInQueue [["t", "Jane", "Essay", "", "error", ""]] "Jane" "Essay" = true ↔
      ∃ row ∈ [["t", "Jane", "Essay", "", "error", ""]], cell row 1 = "Jane" ∧
        cell row 2 = "Essay" ∧ (cell row 5 = "pending" ∨ cell row 5 = "notified")) ∧
    ((getExistingQueueItems [["t", "Jane", "Essay", "", "error", ""]]).contains "K" = true ↔
      ∃ row ∈ [["t", "Jane", "Essay", "", "error", ""]],
        (cell row 9 = "pending" ∨ cell row 9 = "processed") ∧ wvRowKey row = "K") ∧
    ((∀ row ∈ [["t", "Jane", "Essay", "", "error", ""]],
        cell row 1 = "Jane" → cell row 2 = "Essay" → cell row 4 = "error") →
      rvAlreadyInQueue [["t", "Jane", "Essay", "", "error", ""]] "Jane" "Essay" = false) ∧
    ((∀ row ∈ [["t", "Jane", "Essay", "", "error", ""]],
        cell row 1 = "Jane" → cell row 2 = "Essay" → cell row 5 = "error") →
      obAlreadyInQueue [["t", "Jane", "Essay", "", "error", ""]] "Jane" "Essay" = false) ∧
    ((∀ row ∈ [["t", "Jane", "Essay", "", "error", ""]], wvRowKey row = "K" →
        cell row 9 = "error") →
      (getExistingQueueItems [["t", "Jane", "Essay", "", "error", ""]]).contains "K" = false)) :=
  dedup_only_pending_or_done_blocks [["t", "Jane", "Essay", "", "error", ""]] "Jane" "Essay" "K"

/-! ### Claim C8 -/

/-- C8: for a worksheet-queue item with its file id and target-folder id
present and whose file and folder fetches succeed, a successful copy step
yields a successful item (`processed` with the new file URL written) no
matter whether the share-with-student or originating-cell-update steps fail
(their outcomes are `eff.shareResult` / `eff.cellUpdateResult`, universally
quantified here via `eff`); a failing copy step makes the item fail, and the
caller marks it `error` with the thrown message. -/
theorem worksheet_rename_partial_failure_tolerance (eff : RenameEffects)
    (row : List String) (now : String)
    (hfid : cell row 4 ≠ "") (hfolder : cell row 6 ≠ "")
    (hfile : eff.getFileResult = .ok ()) (hfold : eff.getFolderResult = .ok ()) :
    (∀ url, eff.copyResult = .ok url →
      processWorksheetItem eff row = .ok (.success url) ∧
      wvApplyOutcome eff now row = writeRange row 9 ["processed", now, url, ""]) ∧
    (∀ e, eff.copyResult = .error e →
      processWorksheetItem eff row = .error e ∧
      wvApplyOutcome eff now row = writeRange row 9 ["error", now, "", e]) := by
  constructor
  · intro url hcopy
    have hp : processWorksheetItem eff row = .ok (.success url) := by
      unfold processWorksheetItem
      rw [if_neg hfid, if_neg hfolder, hfile, hfold, hcopy]
    exact ⟨hp, by unfold wvApplyOutcome; rw [hp]⟩
  · intro e hcopy
    have hp : processWorksheetItem eff row = .error e := by
      unfold processWorksheetItem
      rw [if_neg hfid, if_neg hfolder, hfile, hfold, hcopy]
    exact ⟨hp, by unfold wvApplyOutcome; rw [hp]⟩

theorem worksheet_rename_partial_failure_tolerance_witness :
    (∀ url,
      (⟨.ok (), .ok (), .ok "u2", .error "share denied",
          .error "cell gone"⟩ : RenameEffects).copyResult = .ok url →
      processWorksheetItem ⟨.ok (), .ok (), .ok "u2", .error "share denied", .error "cell gone"⟩
          ["t", "Jane", "j@x", "Doe", "F1", "f.pdf", "TF", "3", "SS", "pending", "", "", ""]
        = .ok (.success url) ∧
      wvApplyOutcome ⟨.ok (), .ok (), .ok "u2", .error "share denied", .error "cell gone"⟩ "N"
          ["t", "Jane", "j@x", "Doe", "F1", "f.pdf", "TF", "3", "SS", "pending", "", "", ""]
        = writeRange
            ["t", "Jane", "j@x", "Doe", "F1", "f.pdf", "TF", "3", "SS", "pending", "", "", ""]
            9 ["processed", "N", url, ""]) ∧
    (∀ e,
      (⟨.ok (), .ok (), .ok "u2", .error "share denied",
          .error "cell gone"⟩ : RenameEffects).copyResult = .error e →
      processWorksheetItem ⟨.ok (), .ok (), .ok "u2", .error "share denied", .error "cell gone"⟩
          ["t", "Jane", "j@x", "Doe", "F1", "f.pdf", "TF", "3", "SS", "pending", "", "", ""]
        = .error e ∧
      wvApplyOutcome ⟨.ok (), .ok (), .ok "u2", .error "share denied", .error "cell gone"⟩ "N"
          ["t", "Jane", "j@x", "Doe", "F1", "f.pdf", "TF", "3", "SS", "pending", "", "", ""]
        = writeRange
            ["t", "Jane", "j@x", "Doe", "F1", "f.pdf", "TF", "3", "SS", "pending", "", "", ""]
            9 ["error", "N", "", e]) :=
  worksheet_rename_partial_failure_tolerance
    ⟨.ok (), .ok (), .ok "u2", .error "share denied", .error "cell gone"⟩
    ["t", "Jane", "j@x", "Doe", "F1", "f.pdf", "TF", "3", "SS", "pending", "", "", ""] "N"
    (by decide) (by decide) rfl rfl

/-! ### Equation lemmas for the worksheet processor loop -/

theorem wvProcessGo_cons_guard (eff : Nat → RenameEffects) (guard : Nat → Bool) (now : String)
    (i : Nat) (row : List String) (rest : List (List String)) (hg : guard i = true) :
    wvProcessGo eff guard now i (row :: rest) = (row :: rest, ⟨0, 0, []⟩) := by
  conv_lhs => unfold wvProcessGo
  rw [if_pos hg]

theorem wvProcessGo_cons_skip (eff : Nat → RenameEffects) (guard : Nat → Bool) (now : String)
    (i : Nat) (row : List String) (rest : List (List String))
    (hg : guard i = false) (hs : cell row 9 ≠ "pending") :
    wvProcessGo eff guard now i (row :: rest) =
      (row :: (wvProcessGo eff guard now (i + 1) rest).1,
        (wvProcessGo eff guard now (i + 1) rest).2) := by
  conv_lhs => unfold wvProcessGo
  rw [if_neg (by simp [hg]), if_pos hs]

theorem wvProcessGo_cons_pending (eff : Nat → RenameEffects) (guard : Nat → Bool) (now : String)
    (i : Nat) (row : List String) (rest : List (List String))
    (hg : guard i = false) (hs : cell row 9 = "pending") :
    wvProcessGo eff guard now i (row :: rest) =
      (wvApplyOutcome (eff i) now row :: (wvProcessGo eff guard now (i + 1) rest).1,
        wvAddRes (processWorksheetItem (eff i) row) row
          (wvProcessGo eff guard now (i + 1) rest).2) := by
  conv_lhs => unfold wvProcessGo
  rw [if_neg (by simp [hg]), if_neg (by simp [hs])]

/-- `wvApplyOutcome` only rewrites columns 10-13; cells 0-8 are untouched. -/
theorem wvApplyOutcome_frame (eff : RenameEffects) (now : String) (row : List String)
    (j : Nat) (hj : j < 9) (hlen : 9 ≤ row.length) :
    (wvApplyOutcome eff now row).get? j = row.get? j := by
  unfold wvApplyOutcome
  cases processWorksheetItem eff row with
  | ok r =>
    cases r with
    | success url => exact writeRange_frame_before _ _ _ _ hj hlen
    | failure e => exact writeRange_frame_before _ _ _ _ hj hlen
  | error e => exact writeRange_frame_before _ _ _ _ hj hlen

theorem wvProcessGo_frame (eff : Nat → RenameEffects) (guard : Nat → Bool) (now : String) :
    ∀ (data : List (List String)) (idx : Nat), (∀ row ∈ data, 9 ≤ row.length) →
      ∀ i j, j < 9 →
      ((wvProcessGo eff guard now idx data).1.get? i).bind (fun r => r.get? j)
        = (data.get? i).bind (fun r => r.get? j) := by
  intro data
  induction data with
  | nil => intro idx _ i j _; rfl
  | cons row rest ih =>
    intro idx hlen i j hj
    have hlen9 : 9 ≤ row.length := hlen row (List.mem_cons_self _ _)
    have hrest : ∀ r ∈ rest, 9 ≤ r.length := fun r hr => hlen r (List.mem_cons_of_mem _ hr)
    by_cases hg : guard idx = true
    · rw [wvProcessGo_cons_guard eff guard now idx row rest hg]
    · have hg' : guard idx = false := by simpa using hg
      by_cases hs : cell row 9 = "pending"
      · rw [wvProcessGo_cons_pending eff guard now idx row rest hg' hs]
        cases i with
        | zero =>
          show (wvApplyOutcome (eff idx) now row).get? j = row.get? j
          exact wvApplyOutcome_frame _ _ _ _ hj hlen9
        | succ i' =>
          show ((wvProcessGo eff guard now (idx + 1) rest).1.get? i').bind (fun r => r.get? j)
            = (rest.get? i').bind (fun r => r.get? j)
          exact ih (idx + 1) hrest i' j hj
      · rw [wvProcessGo_cons_skip eff guard now idx row rest hg' (by simpa using hs)]
        cases i with
        | zero => rfl
        | succ i' =>
          show ((wvProcessGo eff guard now (idx + 1) rest).1.get? i').bind (fun r => r.get? j)
            = (rest.get? i').bind (fun r => r.get? j)
          exact ih (idx + 1) hrest i' j hj

/-! ### Frame lemma for the review/outbound batch status writes -/

theorem modifyAt_mem {α : Type} (l : List α) (n : Nat) (f : α → α) :
    ∀ x ∈ modifyAt l n f, x ∈ l ∨ ∃ y ∈ l, x = f y := by
  induction l generalizing n with
  | nil => intro x hx; simp [modifyAt] at hx
  | cons a as ih =>
    intro x hx
    cases n with
    | zero =>
      rcases List.mem_cons.mp hx with rfl | hx'
      · exact Or.inr ⟨a, List.mem_cons_self _ _, rfl⟩
      · exact Or.inl (List.mem_cons_of_mem _ hx')
    | succ m =>
      rcases List.mem_cons.mp hx with rfl | hx'
      · exact Or.inl (List.mem_cons_self _ _)
      · rcases ih m x hx' with h | ⟨y, hy, rfl⟩
        · exact Or.inl (List.mem_cons_of_mem _ h)
        · exact Or.inr ⟨y, List.mem_cons_of_mem _ hy, rfl⟩

/-- A fold of `modifyAt`/`writeRange start` updates never touches cells
before column `start`, for any update list, provided every row reaches
column `start`. -/
theorem foldl_update_frame (start : Nat) (updates : List RVUpdate) :
    ∀ (data : List (List String)), (∀ row ∈ data, start ≤ row.length) →
      ∀ i j, j < start →
      ((updates.foldl (fun d u => modifyAt d (u.row - 2)
          (fun row => writeRange row start [u.status, u.notifiedAt])) data).get? i).bind
            (fun r => r.get? j)
        = (data.get? i).bind (fun r => r.get? j) := by
  induction updates with
  | nil => intro data _ i j _; rfl
  | cons u us ih =>
    intro data hlen i j hj
    rw [List.foldl_cons]
    have hstep : ∀ i',
        ((modifyAt data (u.row - 2)
            (fun row => writeRange row start [u.status, u.notifiedAt])).get? i').bind
          (fun r => r.get? j)
          = (data.get? i').bind (fun r => r.get? j) := by
      intro i'
      by_cases hi : u.row - 2 = i'
      · subst hi
        rw [modifyAt_get_eq]
        cases hdata : data.get? (u.row - 2) with
        | none => rfl
        | some row =>
          show (writeRange row start [u.status, u.notifiedAt]).get? j = row.get? j
          exact writeRange_frame_before _ _ _ _ hj (hlen row (List.get?_mem hdata))
      · rw [modifyAt_get_ne _ _ _ _ hi]
    have hpres : ∀ row ∈ modifyAt data (u.row - 2)
        (fun row => writeRange row start [u.status, u.notifiedAt]), start ≤ row.length := by
      intro row hrow
      rcases modifyAt_mem _ _ _ row hrow with h | ⟨y, hy, rfl⟩
      · exact hlen row h
      · have hy' : start ≤ y.length := hlen y hy
        unfold writeRange
        simp only [List.length_append, List.length_take, List.length_drop]
        omega
    rw [ih _ hpres i j hj, hstep i]

/-! ### Claim C9 -/

/-- C9: every status write a Processor performs on a queue row touches only
the status/timestamp/outcome columns of that row: the worksheet processor
writes columns 10-13 (cells 0-8 — timestamp, student name/email, last name,
file id and name, target folder, cell row, spreadsheet id — are unchanged),
the review processor writes columns 5-6 (cells 0-3 unchanged), and the
outbound processor's status-write loop writes columns 6-7 (cells 0-4
unchanged), each for rows of the respective queue schema width. -/
theorem processor_status_update_frame
    (eff : Nat → RenameEffects) (wguard : Nat → Bool) (wnow : String)
    (wdata : List (List String))
    (roster : List Student) (mailSend : String → Except String Unit)
    (rguard : Nat → Bool) (rnow : String) (rdata : List (List String))
    (obdata : List (List String)) (obupdates : List RVUpdate)
    (hw : ∀ row ∈ wdata, row.length = 13)
    (hr : ∀ row ∈ rdata, row.length = 6)
    (hob : ∀ row ∈ obdata, row.length = 7) :
    (∀ i j, j < 9 →
      ((processTasksWorksheets eff wguard wnow wdata).1.get? i).bind (fun r => r.get? j)
        = (wdata.get? i).bind (fun r => r.get? j)) ∧
    (∀ i j, j < 4 →
      ((processReviewRequests roster mailSend rguard rnow rdata).1.get? i).bind
          (fun r => r.get? j)
        = (rdata.get? i).bind (fun r => r.get? j)) ∧
    (∀ i j, j < 5 →
      ((applyOBUpdates obdata obupdates).get? i).bind (fun r => r.get? j)
        = (obdata.get? i).bind (fun r => r.get? j)) := by
  refine ⟨?_, ?_, ?_⟩
  · intro i j hj
    exact wvProcessGo_frame eff wguard wnow wdata 0
      (fun row hrow => by rw [hw row hrow]; omega) i j hj
  · intro i j hj
    unfold processReviewRequests
    by_cases hemp : (rvFilterPending (getAdvisorForStudent roster) rdata).isEmpty
    · simp only [hemp, if_true]
    · simp only [hemp, Bool.false_eq_true, if_false]
      exact foldl_update_frame 4 _ rdata
        (fun row hrow => by rw [hr row hrow]; omega) i j hj
  · intro i j hj
    exact foldl_update_frame 5 obupdates obdata
      (fun row hrow => by rw [hob row hrow]; omega) i j hj

theorem processor_status_update_frame_witness :
    ((processTasksWorksheets (fun _ => ⟨.ok (), .ok (), .ok "u2", .ok (), .ok ()⟩)
        (fun _ => false) "N"
        [["t", "Jane", "j@x", "Doe", "F1", "f.pdf", "TF", "3", "SS", "pending", "", "", ""]]).1.get?
          0).bind (fun r => r.get? 1)
      = (([["t", "Jane", "j@x", "Doe", "F1", "f.pdf", "TF", "3", "SS", "pending", "", "", ""]]
          : List (List String)).get? 0).bind (fun r => r.get? 1) ∧
    ((processReviewRequests [⟨"Jane", "", "u", "Maggie"⟩] (fun _ => .ok ()) (fun _ => false) "N"
        [["t", "Jane", "Essay", "", "pending", ""]]).1.get? 0).bind (fun r => r.get? 1)
      = (([["t", "Jane", "Essay", "", "pending", ""]] : List (List String)).get? 0).bind
          (fun r => r.get? 1) ∧
    ((applyOBUpdates [["t", "Jane", "Essay", "fb", "L", "pending", ""]]
        [⟨2, "notified", "N"⟩]).get? 0).bind (fun r => r.get? 1)
      = (([["t", "Jane", "Essay", "fb", "L", "pending", ""]] : List (List String)).get? 0).bind
          (fun r => r.get? 1) := by
  have h := processor_status_update_frame
    (fun _ => ⟨.ok (), .ok (), .ok "u2", .ok (), .ok ()⟩) (fun _ => false) "N"
    [["t", "Jane", "j@x", "Doe", "F1", "f.pdf", "TF", "3", "SS", "pending", "", "", ""]]
    [⟨"Jane", "", "u", "Maggie"⟩] (fun _ => .ok ()) (fun _ => false) "N"
    [["t", "Jane", "Essay", "", "pending", ""]]
    [["t", "Jane", "Essay", "fb", "L", "pending", ""]] [⟨2, "notified", "N"⟩]
    (by intro row hrow; simp at hrow; rw [hrow]; rfl)
    (by intro row hrow; simp at hrow; rw [hrow]; rfl)
    (by intro row hrow; simp at hrow; rw [hrow]; rfl)
  exact ⟨h.1 0 1 (by omega), h.2.1 0 1 (by omega), h.2.2 0 1 (by omega)⟩

/-! ### Characterizing the processors' selection -/

/-- Truthiness of the advisor lookup for a queue row's student name. -/
def rvResolves (advisorOf : String → Option String) (row : List String) : Bool :=
  match advisorOf (cell row 1) with
  | some adv => adv != ""
  | none => false

/-- One review-queue row passes the `processReviewRequests` filter iff its
status is unset or `pending`, its student name is nonempty, and the advisor
lookup is truthy. -/
def rvSelected (advisorOf : String → Option String) (row : List String) : Bool :=
  (cell row 4 == "" || cell row 4 == "pending") && cell row 1 != "" &&
    rvResolves advisorOf row

/-- The request record built for data row `i`. -/
def rvMkReq (advisorOf : String → Option String) (i : Nat) (row : List String) : RVRequest :=
  { rowIndex := i, actualRow := i + 2, timestamp := cell row 0, studentName := cell row 1,
    reviewType := if cell row 2 = "" then "General" else cell row 2,
    notes := cell row 3, advisor := (advisorOf (cell row 1)).getD "" }

theorem rvFilterGo_cons (advisorOf : String → Option String) (s : Nat)
    (row : List String) (rest : List (List String)) :
    rvFilterGo advisorOf s (row :: rest)
      = (if rvSelected advisorOf row = true then [rvMkReq advisorOf s row] else [])
          ++ rvFilterGo advisorOf (s + 1) rest := by
  conv_lhs => unfold rvFilterGo
  by_cases h4 : (cell row 4 = "" ∨ cell row 4 = "pending")
  · rw [if_pos h4]
    by_cases h1 : cell row 1 = ""
    · rw [if_pos h1]
      have : rvSelected advisorOf row = false := by
        unfold rvSelected
        simp [h1]
      rw [this]
      simp
    · rw [if_neg h1]
      cases hadv : advisorOf (cell row 1) with
      | none =>
        have : rvSelected advisorOf row = false := by
          unfold rvSelected rvResolves
          rw [hadv]
          simp
        rw [this]
        simp
      | some adv =>
        by_cases hadv' : adv = ""
        · have hsel : rvSelected advisorOf row = false := by
            unfold rvSelected rvResolves
            rw [hadv]
            simp [hadv']
          simp [hsel, hadv']
        · have hsel : rvSelected advisorOf row = true := by
            unfold rvSelected rvResolves
            rw [hadv]
            simp [h1, hadv']
            rcases h4 with h | h
            · exact Or.inl h
            · exact Or.inr h
          simp [hsel, hadv', rvMkReq, hadv]
  · rw [if_neg h4]
    have : rvSelected advisorOf row = false := by
      unfold rvSelected
      have h4' : ¬ cell row 4 = "" ∧ ¬ cell row 4 = "pending" := by
        constructor <;> intro h <;> exact h4 (by simp [h])
      simp [h4'.1, h4'.2]
    rw [this]
    simp

theorem rvFilterGo_mem (advisorOf : String → Option String) :
    ∀ (data : List (List String)) (s : Nat) (r : RVRequest),
      r ∈ rvFilterGo advisorOf s data ↔
        ∃ i row, data.get? i = some row ∧ rvSelected advisorOf row = true ∧
          r = rvMkReq advisorOf (s + i) row := by
  intro data
  induction data with
  | nil =>
    intro s r
    simp [rvFilterGo]
  | cons row rest ih =>
    intro s r
    rw [rvFilterGo_cons]
    constructor
    · intro hmem
      rcases List.mem_append.mp hmem with hm | hm
      · by_cases hsel : rvSelected advisorOf row = true
        · rw [if_pos hsel] at hm
          have : r = rvMkReq advisorOf s row := by simpa using hm
          exact ⟨0, row, rfl, hsel, by simpa using this⟩
        · rw [if_neg hsel] at hm
          simp at hm
      · obtain ⟨i, row', hget, hsel, hr⟩ := (ih (s + 1) r).mp hm
        refine ⟨i + 1, row', by simpa using hget, hsel, ?_⟩
        rw [hr]
        congr 1
        omega
    · rintro ⟨i, row', hget, hsel, rfl⟩
      cases i with
      | zero =>
        have hrr : row = row' := by simpa using hget
        subst hrr
        apply List.mem_append.mpr
        exact Or.inl (by rw [if_pos hsel]; simp)
      | succ i' =>
        apply List.mem_append.mpr
        refine Or.inr ((ih (s + 1) (rvMkReq advisorOf (s + (i' + 1)) row')).mpr
          ⟨i', row', by simpa using hget, hsel, ?_⟩)
        congr 1
        omega

/-- Truthiness of the student-email resolution for an outbound-queue row. -/
def obResolves (emailOf : String → Option String) (row : List String) : Bool :=
  match emailOf (cell row 1) with
  | some _ => true
  | none => false

/-- One outbound-queue row passes the `processOutboundReviews` filter iff its
status (column 6) is unset or `pending`, its student name is nonempty, and
the student email resolves. -/
def obSelected (emailOf : String → Option String) (row : List String) : Bool :=
  (cell row 5 == "" || cell row 5 == "pending") && cell row 1 != "" &&
    obResolves emailOf row

/-- The review record built for outbound data row `i`. -/
def obMkRev (emailOf : String → Option String) (i : Nat) (row : List String) : OBReview :=
  { rowIndex := i, actualRow := i + 2, timestamp := cell row 0, studentName := cell row 1,
    taskTitle := if cell row 2 = "" then "General" else cell row 2,
    feedbackText := cell row 3, documentLink := cell row 4,
    studentEmail := (emailOf (cell row 1)).getD "" }

theorem obFilterGo_cons (emailOf : String → Option String) (s : Nat)
    (row : List String) (rest : List (List String)) :
    obFilterGo emailOf s (row :: rest)
      = (if obSelected emailOf row = true then [obMkRev emailOf s row] else [])
          ++ obFilterGo emailOf (s + 1) rest := by
  conv_lhs => unfold obFilterGo
  by_cases h5 : (cell row 5 = "" ∨ cell row 5 = "pending")
  · rw [if_pos h5]
    by_cases h1 : cell row 1 = ""
    · rw [if_pos h1]
      have : obSelected emailOf row = false := by
        unfold obSelected
        simp [h1]
      rw [this]
      simp
    · rw [if_neg h1]
      cases hem : emailOf (cell row 1) with
      | none =>
        have : obSelected emailOf row = false := by
          unfold obSelected obResolves
          rw [hem]
          simp
        rw [this]
        simp
      | some em =>
        have hsel : obSelected emailOf row = true := by
          unfold obSelected obResolves
          rw [hem]
          simp [h1]
          rcases h5 with h | h
          · exact Or.inl h
          · exact Or.inr h
        simp [hsel, obMkRev, hem]
  · rw [if_neg h5]
    have : obSelected emailOf row = false := by
      unfold obSelected
      have h5' : ¬ cell row 5 = "" ∧ ¬ cell row 5 = "pending" := by
        constructor <;> intro h <;> exact h5 (by simp [h])
      simp [h5'.1, h5'.2]
    rw [this]
    simp

theorem obFilterGo_mem (emailOf : String → Option String) :
    ∀ (data : List (List String)) (s : Nat) (r : OBReview),
      r ∈ obFilterGo emailOf s data ↔
        ∃ i row, data.get? i = some row ∧ obSelected emailOf row = true ∧
          r = obMkRev emailOf (s + i) row := by
  intro data
  induction data with
  | nil =>
    intro s r
    simp [obFilterGo]
  | cons row rest ih =>
    intro s r
    rw [obFilterGo_cons]
    constructor
    · intro hmem
      rcases List.mem_append.mp hmem with hm | hm
      · by_cases hsel : obSelected emailOf row = true
        · rw [if_pos hsel] at hm
          have : r = obMkRev emailOf s row := by simpa using hm
          exact ⟨0, row, rfl, hsel, by simpa using this⟩
        · rw [if_neg hsel] at hm
          simp at hm
      · obtain ⟨i, row', hget, hsel, hr⟩ := (ih (s + 1) r).mp hm
        refine ⟨i + 1, row', by simpa using hget, hsel, ?_⟩
        rw [hr]
        congr 1
        omega
    · rintro ⟨i, row', hget, hsel, rfl⟩
      cases i with
      | zero =>
        have hrr : row = row' := by simpa using hget
        subst hrr
        apply List.mem_append.mpr
        exact Or.inl (by rw [if_pos hsel]; simp)
      | succ i' =>
        apply List.mem_append.mpr
        refine Or.inr ((ih (s + 1) (obMkRev emailOf (s + (i' + 1)) row')).mpr
          ⟨i', row', by simpa using hget, hsel, ?_⟩)
        congr 1
        omega

/-- With a never-exceeded guard the worksheet processor rewrites exactly the
rows whose status is literally `pending`, leaving every other row as it
was. -/
theorem wvProcessGo_char (eff : Nat → RenameEffects) (guard : Nat → Bool) (now : String)
    (hg : ∀ n, guard n = false) :
    ∀ (data : List (List String)) (idx i : Nat),
      (wvProcessGo eff guard now idx data).1.get? i
        = (data.get? i).map (fun row =>
            if cell row 9 = "pending" then wvApplyOutcome (eff (idx + i)) now row else row) := by
  intro data
  induction data with
  | nil => intro idx i; simp [wvProcessGo]
  | cons row rest ih =>
    intro idx i
    by_cases hs : cell row 9 = "pending"
    · rw [wvProcessGo_cons_pending eff guard now idx row rest (hg idx) hs]
      cases i with
      | zero =>
        show some (wvApplyOutcome (eff idx) now row) = _
        simp [hs]
      | succ i' =>
        show (wvProcessGo eff guard now (idx + 1) rest).1.get? i' = _
        rw [ih (idx + 1) i']
        have hidx : idx + 1 + i' = idx + (i' + 1) := by omega
        rw [hidx]
        rfl
    · rw [wvProcessGo_cons_skip eff guard now idx row rest (hg idx) (by simpa using hs)]
      cases i with
      | zero =>
        show some row = _
        simp [hs]
      | succ i' =>
        show (wvProcessGo eff guard now (idx + 1) rest).1.get? i' = _
        rw [ih (idx + 1) i']
        have hidx : idx + 1 + i' = idx + (i' + 1) := by omega
        rw [hidx]
        rfl

/-- With a never-exceeded guard the worksheet processor's `processed` count
is exactly the number of rows with status literally `pending`. -/
theorem wvProcessGo_processed_count (eff : Nat → RenameEffects) (guard : Nat → Bool)
    (now : String) (hg : ∀ n, guard n = false) :
    ∀ (data : List (List String)) (idx : Nat),
      (wvProcessGo eff guard now idx data).2.processed
        = (data.filter (fun row => cell row 9 == "pending")).length := by
  intro data
  induction data with
  | nil => intro idx; rfl
  | cons row rest ih =>
    intro idx
    by_cases hs : cell row 9 = "pending"
    · rw [wvProcessGo_cons_pending eff guard now idx row rest (hg idx) hs]
      have haddres : (wvAddRes (processWorksheetItem (eff idx) row) row
          (wvProcessGo eff guard now (idx + 1) rest).2).processed
            = (wvProcessGo eff guard now (idx + 1) rest).2.processed + 1 := by
        unfold wvAddRes
        cases hp : processWorksheetItem (eff idx) row with
        | ok r => cases r with
          | success url => rfl
          | failure e => rfl
        | error e => rfl
      show (wvAddRes (processWorksheetItem (eff idx) row) row
          (wvProcessGo eff guard now (idx + 1) rest).2).processed = _
      rw [haddres, ih (idx + 1), List.filter_cons_of_pos (by simp [hs])]
      simp
    · rw [wvProcessGo_cons_skip eff guard now idx row rest (hg idx) (by simpa using hs)]
      show (wvProcessGo eff guard now (idx + 1) rest).2.processed = _
      rw [ih (idx + 1), List.filter_cons_of_neg (by simp [hs])]

/-! ### Claim C3 -/

/-- C3 counterexample: the worksheet processor does NOT treat an unset
(empty) status as pending.  A queue row with empty status (cell 9) is left
untouched and not counted as processed, with every external call set up to
succeed and the guard never tripping — the claim would require it to be
selected for processing. -/
theorem worksheet_empty_status_not_selected :
    (processTasksWorksheets (fun _ => ⟨.ok (), .ok (), .ok "u2", .ok (), .ok ()⟩)
        (fun _ => false) "N"
        [["t", "Jane", "j@x", "Doe", "F1", "f.pdf", "TF", "3", "SS", "", "", "", ""]]).2.processed
      = 0 ∧
    (processTasksWorksheets (fun _ => ⟨.ok (), .ok (), .ok "u2", .ok (), .ok ()⟩)
        (fun _ => false) "N"
        [["t", "Jane", "j@x", "Doe", "F1", "f.pdf", "TF", "3", "SS", "", "", "", ""]]).1
      = [["t", "Jane", "j@x", "Doe", "F1", "f.pdf", "TF", "3", "SS", "", "", "", ""]] ∧
    cell ["t", "Jane", "j@x", "Doe", "F1", "f.pdf", "TF", "3", "SS", "", "", "", ""] 9 = "" := by
  refine ⟨rfl, rfl, rfl⟩

/-- C3 amended: the review and outbound processors select exactly the rows
whose status is `pending` or unset AND whose student name is nonempty AND
whose advisor (review) / student email (outbound) resolves; the worksheet
processor selects exactly the rows whose status is literally `pending`
(empty status is skipped there), leaving every other row unchanged. -/
theorem processor_selection
    (eff : Nat → RenameEffects) (guard : Nat → Bool) (now : String)
    (wdata : List (List String))
    (advisorOf : String → Option String) (rdata : List (List String))
    (emailOf : String → Option String) (obdata : List (List String))
    (hg : ∀ n, guard n = false) :
    (processTasksWorksheets eff guard now wdata).2.processed
        = (wdata.filter (fun row => cell row 9 == "pending")).length ∧
    (∀ i row, wdata.get? i = some row → cell row 9 ≠ "pending" →
      (processTasksWorksheets eff guard now wdata).1.get? i = some row) ∧
    (∀ r, r ∈ rvFilterPending advisorOf rdata ↔
      ∃ i row, rdata.get? i = some row ∧ rvSelected advisorOf row = true ∧
        r = rvMkReq advisorOf i row) ∧
    (∀ r, r ∈ obFilterPending emailOf obdata ↔
      ∃ i row, obdata.get? i = some row ∧ obSelected emailOf row = true ∧
        r = obMkRev emailOf i row) := by
  refine ⟨?_, ?_, ?_, ?_⟩
  · exact wvProcessGo_processed_count eff guard now hg wdata 0
  · intro i row hget hs
    unfold processTasksWorksheets
    rw [wvProcessGo_char eff guard now hg wdata 0 i, hget]
    simp [hs]
  · intro r
    have := rvFilterGo_mem advisorOf rdata 0 r
    unfold rvFilterPending
    simpa using this
  · intro r
    have := obFilterGo_mem emailOf obdata 0 r
    unfold obFilterPending
    simpa using this

theorem processor_selection_witness :
    (processTasksWorksheets (fun _ => ⟨.ok (), .ok (), .ok "u2", .ok (), .ok ()⟩)
        (fun _ => false) "N"
        [["t", "A", "", "", "F", "f", "T", "3", "S", "pending", "", "", ""],
         ["t", "B", "", "", "F", "f", "T", "4", "S", "", "", "", ""]]).2.processed
      = ([["t", "A", "", "", "F", "f", "T", "3", "S", "pending", "", "", ""],
          ["t", "B", "", "", "F", "f", "T", "4", "S", "", "", "", ""]].filter
            (fun row => cell row 9 == "pending")).length ∧
    (processTasksWorksheets (fun _ => ⟨.ok (), .ok (), .ok "u2", .ok (), .ok ()⟩)
        (fun _ => false) "N"
        [["t", "A", "", "", "F", "f", "T", "3", "S", "pending", "", "", ""],
         ["t", "B", "", "", "F", "f", "T", "4", "S", "", "", "", ""]]).1.get? 1
      = some ["t", "B", "", "", "F", "f", "T", "4", "S", "", "", "", ""] ∧
    rvMkReq (fun _ => some "Maggie") 0 ["t", "Jane", "Essay", "", "pending", ""]
      ∈ rvFilterPending (fun _ => some "Maggie") [["t", "Jane", "Essay", "", "pending", ""]] ∧
    obMkRev (fun _ => some "j@x") 0 ["t", "Jane", "Essay", "fb", "L", "", ""]
      ∈ obFilterPending (fun _ => some "j@x") [["t", "Jane", "Essay", "fb", "L", "", ""]] := by
  have h := processor_selection (fun _ => ⟨.ok (), .ok (), .ok "u2", .ok (), .ok ()⟩)
    (fun _ => false) "N"
    [["t", "A", "", "", "F", "f", "T", "3", "S", "pending", "", "", ""],
     ["t", "B", "", "", "F", "f", "T", "4", "S", "", "", "", ""]]
    (fun _ => some "Maggie") [["t", "Jane", "Essay", "", "pending", ""]]
    (fun _ => some "j@x") [["t", "Jane", "Essay", "fb", "L", "", ""]]
    (fun _ => rfl)
  refine ⟨h.1, h.2.1 1 _ rfl (by decide), ?_, ?_⟩
  · exact (h.2.2.1 _).mpr ⟨0, _, rfl, by decide, rfl⟩
  · exact (h.2.2.2 _).mpr ⟨0, _, rfl, by decide, rfl⟩

/-! ### Lemmas about `_groupByAdvisor` -/

/-- The keys of a group list. -/
def groupKeys (g : List (String × List RVRequest)) : List String := g.map Prod.fst

/-- The requests stored under key `a` (`[]` when absent). -/
def groupGet (g : List (String × List RVRequest)) (a : String) : List RVRequest :=
  match g.find? (fun p => p.1 == a) with
  | some p => p.2
  | none => []

/-- All requests of a group list, in group order. -/
def groupFlat (g : List (String × List RVRequest)) : List RVRequest := g.bind Prod.snd

theorem addToGroup_groupGet (k : String) (r : RVRequest)
    (g : List (String × List RVRequest)) (a : String) :
    groupGet (addToGroup k r g) a = groupGet g a ++ (if k = a then [r] else []) := by
  induction g with
  | nil =>
    unfold addToGroup groupGet
    by_cases hka : k = a
    · subst hka
      simp [List.find?]
    · have hb : (k == a) = false := by simpa using hka
      simp [List.find?, hb, hka]
  | cons p rest ih =>
    obtain ⟨k', rs⟩ := p
    unfold addToGroup
    by_cases hk : k' = k
    · rw [if_pos hk]
      subst hk
      by_cases hka : k' = a
      · subst hka
        unfold groupGet
        simp [List.find?]
      · have hb : (k' == a) = false := by simpa using hka
        unfold groupGet
        simp only [List.find?, hb]
        simp [hka]
    · rw [if_neg hk]
      by_cases hka : k' = a
      · subst hka
        have hka' : ¬ k = k' := fun h => hk h.symm
        unfold groupGet
        simp [List.find?, hka']
      · have hb : (k' == a) = false := by simpa using hka
        have h1 : groupGet ((k', rs) :: addToGroup k r rest) a
            = groupGet (addToGroup k r rest) a := by
          unfold groupGet
          simp only [List.find?, hb]
        have h2 : groupGet ((k', rs) :: rest) a = groupGet rest a := by
          unfold groupGet
          simp only [List.find?, hb]
        rw [h1, h2, ih]

theorem groupGet_fold (l : List RVRequest) :
    ∀ (acc : List (String × List RVRequest)) (a : String),
      groupGet (l.foldl (fun acc r => addToGroup (advisorKey r) r acc) acc) a
        = groupGet acc a ++ l.filter (fun r => advisorKey r == a) := by
  induction l with
  | nil => intro acc a; simp
  | cons r rest ih =>
    intro acc a
    rw [List.foldl_cons, ih, addToGroup_groupGet]
    by_cases hk : advisorKey r = a
    · rw [if_pos hk, List.filter_cons_of_pos (by simpa using hk), List.append_assoc]
      simp
    · rw [if_neg hk, List.filter_cons_of_neg (by simpa using hk)]
      simp

/-- `_groupByAdvisor` groups exactly: under key `a` sit exactly the requests
whose advisor key is `a`, in their original order. -/
theorem groupByAdvisor_groupGet (reqs : List RVRequest) (a : String) :
    groupGet (groupByAdvisor reqs) a = reqs.filter (fun r => advisorKey r == a) := by
  have := groupGet_fold reqs [] a
  unfold groupByAdvisor
  rw [this]
  rfl

theorem addToGroup_keys (k : String) (r : RVRequest) (g : List (String × List RVRequest)) :
    groupKeys (addToGroup k r g)
      = if k ∈ groupKeys g then groupKeys g else groupKeys g ++ [k] := by
  induction g with
  | nil => simp [addToGroup, groupKeys]
  | cons p rest ih =>
    obtain ⟨k', rs⟩ := p
    unfold addToGroup
    by_cases hk : k' = k
    · subst hk
      simp [groupKeys]
    · rw [if_neg hk]
      have hcons : groupKeys ((k', rs) :: addToGroup k r rest)
          = k' :: groupKeys (addToGroup k r rest) := rfl
      have hcons2 : groupKeys ((k', rs) :: rest) = k' :: groupKeys rest := rfl
      rw [hcons, ih, hcons2]
      by_cases hin : k ∈ groupKeys rest
      · rw [if_pos hin, if_pos (List.mem_cons_of_mem _ hin)]
      · rw [if_neg hin, if_neg ?_]
        · rfl
        · intro hmem
          rcases List.mem_cons.mp hmem with h | h
          · exact hk h.symm
          · exact hin h

theorem keys_fold_nodup (l : List RVRequest) :
    ∀ (acc : List (String × List RVRequest)), (groupKeys acc).Nodup →
      (groupKeys (l.foldl (fun acc r => addToGroup (advisorKey r) r acc) acc)).Nodup := by
  induction l with
  | nil => intro acc h; simpa using h
  | cons r rest ih =>
    intro acc h
    rw [List.foldl_cons]
    apply ih
    rw [addToGroup_keys]
    by_cases hin : advisorKey r ∈ groupKeys acc
    · rw [if_pos hin]; exact h
    · rw [if_neg hin]
      rw [List.nodup_append]
      refine ⟨h, List.nodup_singleton _, ?_⟩
      intro a ha hb
      have : a = advisorKey r := by simpa using hb
      subst this
      exact hin ha

/-- The group keys of `_groupByAdvisor` are pairwise distinct. -/
theorem groupByAdvisor_keys_nodup (reqs : List RVRequest) :
    (groupKeys (groupByAdvisor reqs)).Nodup :=
  keys_fold_nodup reqs [] (by simp [groupKeys])

theorem addToGroup_flat_perm (k : String) (r : RVRequest)
    (g : List (String × List RVRequest)) :
    (groupFlat (addToGroup k r g)).Perm (groupFlat g ++ [r]) := by
  induction g with
  | nil =>
    show ([r] : List RVRequest).Perm ([] ++ [r])
    exact List.Perm.refl _
  | cons p rest ih =>
    obtain ⟨k', rs⟩ := p
    unfold addToGroup
    by_cases hk : k' = k
    · rw [if_pos hk]
      show ((rs ++ [r]) ++ groupFlat rest).Perm ((rs ++ groupFlat rest) ++ [r])
      rw [List.append_assoc rs [r] (groupFlat rest), List.append_assoc rs (groupFlat rest) [r]]
      exact List.Perm.append_left rs List.perm_append_comm
    · rw [if_neg hk]
      show (rs ++ groupFlat (addToGroup k r rest)).Perm ((rs ++ groupFlat rest) ++ [r])
      rw [List.append_assoc rs (groupFlat rest) [r]]
      exact List.Perm.append_left rs ih

theorem flat_fold_perm (l : List RVRequest) :
    ∀ (acc : List (String × List RVRequest)),
      (groupFlat (l.foldl (fun acc r => addToGroup (advisorKey r) r acc) acc)).Perm
        (groupFlat acc ++ l) := by
  induction l with
  | nil => intro acc; simp
  | cons r rest ih =>
    intro acc
    rw [List.foldl_cons]
    have h1 := ih (addToGroup (advisorKey r) r acc)
    have h2 : (groupFlat (addToGroup (advisorKey r) r acc) ++ rest).Perm
        ((groupFlat acc ++ [r]) ++ rest) :=
      List.Perm.append_right rest (addToGroup_flat_perm _ _ _)
    have h3 : (groupFlat acc ++ [r]) ++ rest = groupFlat acc ++ (r :: rest) := by
      rw [List.append_assoc]
      rfl
    exact h1.trans (h3 ▸ h2)

/-- The groups of `_groupByAdvisor` partition the request list (as a
permutation). -/
theorem groupByAdvisor_flat_perm (reqs : List RVRequest) :
    (groupFlat (groupByAdvisor reqs)).Perm reqs := by
  have := flat_fold_perm reqs []
  simpa [groupFlat] using this

theorem keycorrect_fold (l : List RVRequest) :
    ∀ (acc : List (String × List RVRequest)),
      (∀ p ∈ acc, ∀ r ∈ p.2, advisorKey r = p.1) →
      ∀ p ∈ l.foldl (fun acc r => addToGroup (advisorKey r) r acc) acc,
        ∀ r ∈ p.2, advisorKey r = p.1 := by
  induction l with
  | nil => intro acc h; simpa using h
  | cons q rest ih =>
    intro acc h
    rw [List.foldl_cons]
    apply ih
    -- addToGroup preserves key-correctness when the inserted key is the request's key
    clear ih
    have : ∀ (g : List (String × List RVRequest)),
        (∀ p ∈ g, ∀ r ∈ p.2, advisorKey r = p.1) →
        ∀ p ∈ addToGroup (advisorKey q) q g, ∀ r ∈ p.2, advisorKey r = p.1 := by
      intro g
      induction g with
      | nil =>
        intro _ p hp r hr
        simp [addToGroup] at hp
        subst hp
        have : r = q := by simpa using hr
        subst this
        rfl
      | cons p' rest' ih' =>
        intro hg p hp r hr
        obtain ⟨k', rs⟩ := p'
        unfold addToGroup at hp
        by_cases hk : k' = advisorKey q
        · rw [if_pos hk] at hp
          rcases List.mem_cons.mp hp with rfl | hp'
          · rcases List.mem_append.mp hr with hr' | hr'
            · exact hg (k', rs) (List.mem_cons_self _ _) r hr'
            · have : r = q := by simpa using hr'
              subst this
              exact hk.symm
          · exact hg p (List.mem_cons_of_mem _ hp') r hr
        · rw [if_neg hk] at hp
          rcases List.mem_cons.mp hp with rfl | hp'
          · exact hg (k', rs) (List.mem_cons_self _ _) r hr
          · exact ih' (fun p hp => hg p (List.mem_cons_of_mem _ hp)) p hp' r hr
    exact this acc h

/-- Every request sits under its own advisor key. -/
theorem groupByAdvisor_key_correct (reqs : List RVRequest) :
    ∀ p ∈ groupByAdvisor reqs, ∀ r ∈ p.2, advisorKey r = p.1 :=
  keycorrect_fold reqs [] (by simp)

/-! ### Characterizing the send loop and the batch update -/

/-- With a never-exceeded guard, the status writes queued by the send loop
are exactly one `notified`/`now` write per request of each successfully
notified group. -/
theorem rvSendLoop_updates (mailSend : String → Except String Unit) (guard : Nat → Bool)
    (now : String) (hg : ∀ n, guard n = false) :
    ∀ (groups : List (String × List RVRequest)) (gi : Nat),
      (rvSendLoop mailSend guard now gi groups).1
        = groups.bind (fun g =>
            if (sendAdvisorNotification mailSend g.1).1 = true then
              g.2.map (fun r => ⟨r.actualRow, "notified", now⟩)
            else []) := by
  intro groups
  induction groups with
  | nil => intro gi; rfl
  | cons g rest ih =>
    intro gi
    obtain ⟨advisor, requests⟩ := g
    show (rvSendLoop mailSend guard now gi ((advisor, requests) :: rest)).1 = _
    unfold rvSendLoop
    rw [if_neg (by simp [hg gi])]
    by_cases hok : (sendAdvisorNotification mailSend advisor).1 = true
    · simp only [hok, if_true]
      show requests.map _ ++ (rvSendLoop mailSend guard now (gi + 1) rest).1 = _
      rw [ih (gi + 1)]
      simp [List.cons_bind, hok]
    · have hok' : (sendAdvisorNotification mailSend advisor).1 = false := by
        simpa using hok
      simp only [hok', Bool.false_eq_true, if_false]
      show (rvSendLoop mailSend guard now (gi + 1) rest).1 = _
      rw [ih (gi + 1)]
      simp [List.cons_bind, hok']

/-- With a never-exceeded guard, exactly one notification is sent per
successfully notified group, carrying that group's subjects. -/
theorem rvSendLoop_notifs (mailSend : String → Except String Unit) (guard : Nat → Bool)
    (now : String) (hg : ∀ n, guard n = false) :
    ∀ (groups : List (String × List RVRequest)) (gi : Nat),
      (rvSendLoop mailSend guard now gi groups).2.1
        = groups.filterMap (fun g =>
            if (sendAdvisorNotification mailSend g.1).1 = true then
              some (g.1, g.2.map RVRequest.reviewType)
            else none) := by
  intro groups
  induction groups with
  | nil => intro gi; rfl
  | cons g rest ih =>
    intro gi
    obtain ⟨advisor, requests⟩ := g
    unfold rvSendLoop
    rw [if_neg (by simp [hg gi])]
    by_cases hok : (sendAdvisorNotification mailSend advisor).1 = true
    · simp only [hok, if_true]
      show (advisor, requests.map RVRequest.reviewType)
          :: (rvSendLoop mailSend guard now (gi + 1) rest).2.1 = _
      rw [ih (gi + 1), List.filterMap_cons]
      simp [hok]
    · have hok' : (sendAdvisorNotification mailSend advisor).1 = false := by
        simpa using hok
      simp only [hok', Bool.false_eq_true, if_false]
      show (rvSendLoop mailSend guard now (gi + 1) rest).2.1 = _
      rw [ih (gi + 1), List.filterMap_cons]
      simp [hok']

/-- With a never-exceeded guard, one error entry is recorded per group whose
notification failed, and none for successful groups. -/
theorem rvSendLoop_errors (mailSend : String → Except String Unit) (guard : Nat → Bool)
    (now : String) (hg : ∀ n, guard n = false) :
    ∀ (groups : List (String × List RVRequest)) (gi : Nat),
      (rvSendLoop mailSend guard now gi groups).2.2.errors
        = groups.filterMap (fun g =>
            if (sendAdvisorNotification mailSend g.1).1 = true then none
            else some (g.1, (sendAdvisorNotification mailSend g.1).2)) := by
  intro groups
  induction groups with
  | nil => intro gi; rfl
  | cons g rest ih =>
    intro gi
    obtain ⟨advisor, requests⟩ := g
    unfold rvSendLoop
    rw [if_neg (by simp [hg gi])]
    by_cases hok : (sendAdvisorNotification mailSend advisor).1 = true
    · simp only [hok, if_true]
      show (rvSendLoop mailSend guard now (gi + 1) rest).2.2.errors = _
      rw [ih (gi + 1), List.filterMap_cons]
      simp [hok]
    · have hok' : (sendAdvisorNotification mailSend advisor).1 = false := by
        simpa using hok
      simp only [hok', Bool.false_eq_true, if_false]
      show (advisor, (sendAdvisorNotification mailSend advisor).2)
          :: (rvSendLoop mailSend guard now (gi + 1) rest).2.2.errors = _
      rw [ih (gi + 1), List.filterMap_cons]
      simp [hok']

/-- Applying a batch of status writes with pairwise-distinct target rows:
each targeted data row is rewritten by its (unique) update, every other row
is untouched. -/
theorem applyRVUpdates_char (updates : List RVUpdate)
    (hnd : (updates.map (fun u => u.row - 2)).Nodup) :
    ∀ (data : List (List String)) (i : Nat),
      (applyRVUpdates data updates).get? i
        = match updates.find? (fun u => u.row - 2 == i) with
          | some u => (data.get? i).map (fun row => writeRange row 4 [u.status, u.notifiedAt])
          | none => data.get? i := by
  induction updates with
  | nil => intro data i; rfl
  | cons u us ih =>
    intro data i
    have hnd' : (us.map (fun u => u.row - 2)).Nodup := by
      rw [List.map_cons] at hnd
      exact hnd.of_cons
    have hnotin : u.row - 2 ∉ us.map (fun u => u.row - 2) := by
      rw [List.map_cons] at hnd
      exact (List.nodup_cons.mp hnd).1
    show (applyRVUpdates (modifyAt data (u.row - 2)
        (fun row => writeRange row 4 [u.status, u.notifiedAt])) us).get? i = _
    rw [ih hnd' _ i]
    by_cases hi : u.row - 2 = i
    · have hfind : us.find? (fun u' => u'.row - 2 == i) = none := by
        rw [List.find?_eq_none]
        intro u' hu'
        simp only [beq_iff_eq]
        intro hcon
        exact hnotin (by rw [← hi] at hcon; exact hcon ▸ List.mem_map_of_mem _ hu')
      have hpos : ((fun u' : RVUpdate => u'.row - 2 == i) u) = true := by simpa using hi
      rw [hfind, List.find?_cons_of_pos us hpos]
      subst hi
      rw [modifyAt_get_eq]
    · have hcond : ¬ ((fun u' : RVUpdate => u'.row - 2 == i) u = true) := by simpa using hi
      rw [List.find?_cons_of_neg us hcond, modifyAt_get_ne _ _ _ _ hi]

/-- Requests produced by the filter have strictly increasing row indices. -/
theorem rvFilterGo_pairwise (advisorOf : String → Option String) :
    ∀ (data : List (List String)) (s : Nat),
      (rvFilterGo advisorOf s data).Pairwise (fun a b => a.rowIndex < b.rowIndex) := by
  intro data
  induction data with
  | nil => intro s; simp [rvFilterGo]
  | cons row rest ih =>
    intro s
    rw [rvFilterGo_cons]
    rw [List.pairwise_append]
    refine ⟨?_, ih (s + 1), ?_⟩
    · by_cases hsel : rvSelected advisorOf row = true
      · rw [if_pos hsel]; simp
      · rw [if_neg hsel]; simp
    · intro a ha b hb
      obtain ⟨i, row', hget, hselb, hb'⟩ := (rvFilterGo_mem advisorOf rest (s + 1) b).mp hb
      by_cases hsel : rvSelected advisorOf row = true
      · rw [if_pos hsel] at ha
        have : a = rvMkReq advisorOf s row := by simpa using ha
        subst this
        rw [hb']
        show s < s + 1 + i
        omega
      · rw [if_neg hsel] at ha
        simp at ha

/-- A request's `actualRow` is its data row index plus 2 (header offset). -/
theorem rvFilterGo_actualRow (advisorOf : String → Option String)
    (data : List (List String)) (s : Nat) :
    ∀ r ∈ rvFilterGo advisorOf s data, r.actualRow = r.rowIndex + 2 := by
  intro r hr
  obtain ⟨i, row, hget, hsel, hr'⟩ := (rvFilterGo_mem advisorOf data s r).mp hr
  rw [hr']
  rfl

/-! ### The review processor end to end -/

/-- Whether the notification attempt for advisor `a` succeeds. -/
def rvOk (mailSend : String → Except String Unit) (a : String) : Bool :=
  (sendAdvisorNotification mailSend a).1

/-- Membership in the flattened groups is membership in the request list. -/
theorem groupFlat_mem (reqs : List RVRequest) (r : RVRequest) :
    (∃ p ∈ groupByAdvisor reqs, r ∈ p.2) ↔ r ∈ reqs := by
  constructor
  · rintro ⟨p, hp, hr⟩
    exact (groupByAdvisor_flat_perm reqs).mem_iff.mp (List.mem_bind.mpr ⟨p, hp, hr⟩)
  · intro hr
    have := (groupByAdvisor_flat_perm reqs).mem_iff.mpr hr
    exact List.mem_bind.mp this

/-- The group entry of a request's advisor key. -/
theorem groupByAdvisor_entry (reqs : List RVRequest) (r : RVRequest) (hr : r ∈ reqs) :
    ∃ p, p ∈ groupByAdvisor reqs ∧ p.1 = advisorKey r ∧
      p.2 = reqs.filter (fun x => advisorKey x == advisorKey r) := by
  have hget := groupByAdvisor_groupGet reqs (advisorKey r)
  have hne : groupGet (groupByAdvisor reqs) (advisorKey r) ≠ [] := by
    rw [hget]
    intro hcon
    have : r ∈ reqs.filter (fun x => advisorKey x == advisorKey r) :=
      List.mem_filter.mpr ⟨hr, by simp⟩
    rw [hcon] at this
    exact List.not_mem_nil r this
  unfold groupGet at hget hne
  cases hfind : (groupByAdvisor reqs).find? (fun p => p.1 == advisorKey r) with
  | none =>
    rw [hfind] at hne
    exact absurd rfl hne
  | some p =>
    rw [hfind] at hget
    refine ⟨p, List.mem_of_find?_eq_some hfind, ?_, hget⟩
    have := List.find?_some hfind
    simpa using this

/-- Every queued status write comes from a request of a successfully
notified group. -/
theorem rvUpdates_mem_inv (roster : List Student) (mailSend : String → Except String Unit)
    (guard : Nat → Bool) (now : String) (data : List (List String))
    (hg : ∀ n, guard n = false) :
    ∀ u ∈ (rvSendLoop mailSend guard now 0
        (groupByAdvisor (rvFilterPending (getAdvisorForStudent roster) data))).1,
      ∃ r ∈ rvFilterPending (getAdvisorForStudent roster) data,
        rvOk mailSend (advisorKey r) = true ∧
        u = ⟨r.actualRow, "notified", now⟩ := by
  intro u hu
  rw [rvSendLoop_updates mailSend guard now hg _ 0] at hu
  obtain ⟨p, hp, hu2⟩ := List.mem_bind.mp hu
  by_cases hok : (sendAdvisorNotification mailSend p.1).1 = true
  · rw [if_pos hok] at hu2
    obtain ⟨r, hr, rfl⟩ := List.mem_map.mp hu2
    have hkey := groupByAdvisor_key_correct _ p hp r hr
    have hmem := (groupFlat_mem _ r).mp ⟨p, hp, hr⟩
    exact ⟨r, hmem, by rw [rvOk, hkey]; exact hok, rfl⟩
  · rw [if_neg hok] at hu2
    exact absurd hu2 (List.not_mem_nil u)

/-- Conversely, every request of a successfully notified group gets its
status write queued. -/
theorem rvUpdates_mem (roster : List Student) (mailSend : String → Except String Unit)
    (guard : Nat → Bool) (now : String) (data : List (List String))
    (hg : ∀ n, guard n = false) (r : RVRequest)
    (hr : r ∈ rvFilterPending (getAdvisorForStudent roster) data)
    (hok : rvOk mailSend (advisorKey r) = true) :
    (⟨r.actualRow, "notified", now⟩ : RVUpdate) ∈ (rvSendLoop mailSend guard now 0
        (groupByAdvisor (rvFilterPending (getAdvisorForStudent roster) data))).1 := by
  rw [rvSendLoop_updates mailSend guard now hg _ 0]
  obtain ⟨p, hp, hp1, hp2⟩ := groupByAdvisor_entry _ r hr
  refine List.mem_bind.mpr ⟨p, hp, ?_⟩
  rw [if_pos (by rw [hp1]; exact hok)]
  exact List.mem_map.mpr ⟨r, by rw [hp2]; exact List.mem_filter.mpr ⟨hr, by simp⟩, rfl⟩

/-- The filter output's row indices are pairwise distinct. -/
theorem rvFilter_rowIndex_nodup (advisorOf : String → Option String)
    (data : List (List String)) :
    ((rvFilterPending advisorOf data).map RVRequest.rowIndex).Nodup := by
  have hpw := rvFilterGo_pairwise advisorOf data 0
  show ((rvFilterPending advisorOf data).map RVRequest.rowIndex).Pairwise (fun a b => a ≠ b)
  exact List.Pairwise.map _ (fun a b h => Nat.ne_of_lt h) hpw

/-- Distinct requests of the filter output have distinct row indices. -/
theorem rvFilter_rowIndex_inj (advisorOf : String → Option String)
    (data : List (List String)) :
    ∀ r ∈ rvFilterPending advisorOf data, ∀ r' ∈ rvFilterPending advisorOf data,
      r.rowIndex = r'.rowIndex → r = r' := by
  intro r hr r' hr' heq
  exact List.inj_on_of_nodup_map (rvFilter_rowIndex_nodup advisorOf data) hr hr' heq

theorem rvUpdates_sublist_aux (mailSend : String → Except String Unit) (now : String) :
    ∀ (g : List (String × List RVRequest)),
      (∀ p ∈ g, ∀ r ∈ p.2, r.actualRow = r.rowIndex + 2) →
      ((g.bind (fun p =>
          if (sendAdvisorNotification mailSend p.1).1 = true then
            p.2.map (fun r => (⟨r.actualRow, "notified", now⟩ : RVUpdate))
          else [])).map (fun u => u.row - 2)).Sublist
        ((g.bind Prod.snd).map RVRequest.rowIndex) := by
  intro g
  induction g with
  | nil => intro _; simp
  | cons p rest ih =>
    intro hact
    rw [show ((p :: rest).bind Prod.snd) = p.2 ++ rest.bind Prod.snd from rfl,
      show ((p :: rest).bind (fun p =>
          if (sendAdvisorNotification mailSend p.1).1 = true then
            p.2.map (fun r => (⟨r.actualRow, "notified", now⟩ : RVUpdate))
          else []))
        = (if (sendAdvisorNotification mailSend p.1).1 = true then
            p.2.map (fun r => (⟨r.actualRow, "notified", now⟩ : RVUpdate))
          else []) ++ rest.bind (fun p =>
          if (sendAdvisorNotification mailSend p.1).1 = true then
            p.2.map (fun r => (⟨r.actualRow, "notified", now⟩ : RVUpdate))
          else []) from rfl,
      List.map_append, List.map_append]
    have hrest := ih (fun p' hp' => hact p' (List.mem_cons_of_mem _ hp'))
    by_cases hok : (sendAdvisorNotification mailSend p.1).1 = true
    · rw [if_pos hok]
      apply List.Sublist.append _ hrest
      rw [List.map_map]
      have : ∀ r ∈ p.2, ((fun u : RVUpdate => u.row - 2) ∘
          (fun r => (⟨r.actualRow, "notified", now⟩ : RVUpdate))) r = RVRequest.rowIndex r := by
        intro r hr
        have := hact p (List.mem_cons_self _ _) r hr
        show r.actualRow - 2 = r.rowIndex
        omega
      rw [List.map_congr_left this]
    · rw [if_neg hok]
      simp only [List.map_nil, List.nil_append]
      exact hrest.trans (List.sublist_append_right _ _)

/-- The queued status writes target pairwise-distinct data rows. -/
theorem rvUpdates_targets_nodup (roster : List Student)
    (mailSend : String → Except String Unit) (guard : Nat → Bool) (now : String)
    (data : List (List String)) (hg : ∀ n, guard n = false) :
    (((rvSendLoop mailSend guard now 0
        (groupByAdvisor (rvFilterPending (getAdvisorForStudent roster) data))).1).map
          (fun u => u.row - 2)).Nodup := by
  rw [rvSendLoop_updates mailSend guard now hg _ 0]
  have hact : ∀ p ∈ groupByAdvisor (rvFilterPending (getAdvisorForStudent roster) data),
      ∀ r ∈ p.2, r.actualRow = r.rowIndex + 2 := by
    intro p hp r hr
    have hmem := (groupFlat_mem _ r).mp ⟨p, hp, hr⟩
    exact rvFilterGo_actualRow _ data 0 r hmem
  have hsub := rvUpdates_sublist_aux mailSend now _ hact
  apply hsub.nodup
  have hperm : ((groupByAdvisor (rvFilterPending (getAdvisorForStudent roster)
      data)).bind Prod.snd).Perm (rvFilterPending (getAdvisorForStudent roster) data) :=
    groupByAdvisor_flat_perm _
  have := (hperm.map RVRequest.rowIndex).nodup_iff
  rw [this]
  exact rvFilter_rowIndex_nodup _ data

/-- End-to-end characterization of one `processReviewRequests` run with a
never-exceeded guard: the data row of a filtered request whose advisor group
was notified successfully gets `[notified, now]` written at columns 5-6;
every other row — not filtered, or in a group whose notification failed — is
unchanged. -/
theorem processReviewRequests_final_char (roster : List Student)
    (mailSend : String → Except String Unit) (guard : Nat → Bool) (now : String)
    (data : List (List String)) (hg : ∀ n, guard n = false) (i : Nat) :
    (processReviewRequests roster mailSend guard now data).1.get? i
      = match (rvFilterPending (getAdvisorForStudent roster) data).find?
            (fun r => r.rowIndex == i) with
        | some r =>
          if rvOk mailSend (advisorKey r) = true then
            (data.get? i).map (fun row => writeRange row 4 ["notified", now])
          else data.get? i
        | none => data.get? i := by
  by_cases hemp : (rvFilterPending (getAdvisorForStudent roster) data).isEmpty
  · have hnil : rvFilterPending (getAdvisorForStudent roster) data = [] :=
      List.isEmpty_iff.mp hemp
    unfold processReviewRequests
    rw [hnil]
    simp [List.find?]
  · have hfinal : (processReviewRequests roster mailSend guard now data).1
        = applyRVUpdates data (rvSendLoop mailSend guard now 0
            (groupByAdvisor (rvFilterPending (getAdvisorForStudent roster) data))).1 := by
      unfold processReviewRequests
      simp only [hemp, Bool.false_eq_true, if_false]
    rw [hfinal,
      applyRVUpdates_char _ (rvUpdates_targets_nodup roster mailSend guard now data hg) data i]
    cases hfind : (rvFilterPending (getAdvisorForStudent roster) data).find?
        (fun r => r.rowIndex == i) with
    | some r =>
      have hrmem : r ∈ rvFilterPending (getAdvisorForStudent roster) data :=
        List.mem_of_find?_eq_some hfind
      have hri : r.rowIndex = i := by simpa using List.find?_some hfind
      by_cases hok : rvOk mailSend (advisorKey r) = true
      · have hu := rvUpdates_mem roster mailSend guard now data hg r hrmem hok
        cases hufind : ((rvSendLoop mailSend guard now 0
            (groupByAdvisor (rvFilterPending (getAdvisorForStudent roster) data))).1).find?
              (fun u => u.row - 2 == i) with
        | none =>
          exfalso
          rw [List.find?_eq_none] at hufind
          refine hufind _ hu ?_
          have := rvFilterGo_actualRow _ data 0 r hrmem
          show ((⟨r.actualRow, "notified", now⟩ : RVUpdate).row - 2 == i) = true
          simp only [beq_iff_eq]
          omega
        | some u =>
          obtain ⟨r', hr'mem, hr'ok, hu'⟩ := rvUpdates_mem_inv roster mailSend guard now data hg
            u (List.mem_of_find?_eq_some hufind)
          rw [hu']
          simp [hok]
      · have hok' : rvOk mailSend (advisorKey r) = false := by simpa using hok
        have hufind : ((rvSendLoop mailSend guard now 0
            (groupByAdvisor (rvFilterPending (getAdvisorForStudent roster) data))).1).find?
              (fun u => u.row - 2 == i) = none := by
          rw [List.find?_eq_none]
          intro u hu hcon
          obtain ⟨r', hr'mem, hr'ok, rfl⟩ := rvUpdates_mem_inv roster mailSend guard now data hg
            u hu
          have hact' := rvFilterGo_actualRow _ data 0 r' hr'mem
          have : r'.rowIndex = i := by
            simp only [beq_iff_eq] at hcon
            omega
          have : r' = r := rvFilter_rowIndex_inj _ data r' hr'mem r hrmem (by omega)
          subst this
          rw [hr'ok] at hok'
          exact Bool.noConfusion hok'
        rw [hufind]
        simp [hok']
    | none =>
      have hufind : ((rvSendLoop mailSend guard now 0
          (groupByAdvisor (rvFilterPending (getAdvisorForStudent roster) data))).1).find?
            (fun u => u.row - 2 == i) = none := by
        rw [List.find?_eq_none]
        intro u hu hcon
        obtain ⟨r', hr'mem, hr'ok, rfl⟩ := rvUpdates_mem_inv roster mailSend guard now data hg
          u hu
        rw [List.find?_eq_none] at hfind
        refine hfind r' hr'mem ?_
        have hact' := rvFilterGo_actualRow _ data 0 r' hr'mem
        simp only [beq_iff_eq] at hcon ⊢
        omega
      rw [hufind]

/-! ### Claim C2 -/

/-- The failure message of one worksheet item, when the item did not
succeed (returned failure or threw). -/
def wvFailMsg : Except String WItemResult → Option String
  | .ok (.success _) => none
  | .ok (.failure e) => some e
  | .error e => some e

theorem wvApplyOutcome_fail (eff : RenameEffects) (now : String) (row : List String)
    (e : String) (h : wvFailMsg (processWorksheetItem eff row) = some e) :
    wvApplyOutcome eff now row = writeRange row 9 ["error", now, "", e] := by
  unfold wvApplyOutcome
  unfold wvFailMsg at h
  cases hp : processWorksheetItem eff row with
  | ok r =>
    cases r with
    | success url => rw [hp] at h; exact Option.noConfusion h
    | failure e' =>
      rw [hp] at h
      have : e' = e := Option.some.inj h
      rw [this]
  | error e' =>
    rw [hp] at h
    have : e' = e := Option.some.inj h
    rw [this]

/-- A failed group's error entry appears in the run's error list. -/
theorem processReviewRequests_errors_mem (roster : List Student)
    (mailSend : String → Except String Unit) (guard : Nat → Bool) (now : String)
    (data : List (List String)) (hg : ∀ n, guard n = false) (r : RVRequest)
    (hr : r ∈ rvFilterPending (getAdvisorForStudent roster) data)
    (hok : rvOk mailSend (advisorKey r) = false) :
    (advisorKey r, (sendAdvisorNotification mailSend (advisorKey r)).2)
      ∈ (processReviewRequests roster mailSend guard now data).2.2.errors := by
  have hemp : ¬ (rvFilterPending (getAdvisorForStudent roster) data).isEmpty = true := by
    intro hcon
    rw [List.isEmpty_iff.mp hcon] at hr
    exact List.not_mem_nil r hr
  have herr : (processReviewRequests roster mailSend guard now data).2.2.errors
      = (rvSendLoop mailSend guard now 0
          (groupByAdvisor (rvFilterPending (getAdvisorForStudent roster) data))).2.2.errors := by
    unfold processReviewRequests
    simp only [Bool.not_eq_true] at hemp
    simp only [hemp, Bool.false_eq_true, if_false]
  rw [herr, rvSendLoop_errors mailSend guard now hg _ 0]
  obtain ⟨p, hp, hp1, hp2⟩ := groupByAdvisor_entry _ r hr
  refine List.mem_filterMap.mpr ⟨p, hp, ?_⟩
  rw [hp1]
  unfold rvOk at hok
  rw [if_neg (by rw [hok]; exact Bool.false_ne_true)]

/-- Searching the filter output for a member's row index finds that very
member (row indices are unique). -/
theorem rvFilter_find_self (advisorOf : String → Option String) (data : List (List String))
    (r : RVRequest) (hr : r ∈ rvFilterPending advisorOf data) :
    (rvFilterPending advisorOf data).find? (fun x => x.rowIndex == r.rowIndex) = some r := by
  cases hfind : (rvFilterPending advisorOf data).find? (fun x => x.rowIndex == r.rowIndex) with
  | none =>
    exfalso
    rw [List.find?_eq_none] at hfind
    exact hfind r hr (by simp)
  | some r'' =>
    have hmem'' := List.mem_of_find?_eq_some hfind
    have heq : r''.rowIndex = r.rowIndex := by simpa using List.find?_some hfind
    rw [rvFilter_rowIndex_inj advisorOf data r'' hmem'' r hr heq]

/-- C2 counterexample: in the review-notification subsystem a failed email
send does NOT transition the item to `error`: with one pending item for Jane
Doe (advisor Maggie) and a mailer that throws, the queue row is left exactly
as it was (status still `pending`), while the failure is only recorded in
the run's error list. -/
theorem review_send_failure_leaves_pending :
    (processReviewRequests [⟨"Jane Doe", "", "u", "Maggie"⟩]
        (fun _ => .error "SMTP failure") (fun _ => false) "N"
        [["t", "Jane Doe", "Essay", "", "pending", ""]]).1
      = [["t", "Jane Doe", "Essay", "", "pending", ""]] ∧
    (processReviewRequests [⟨"Jane Doe", "", "u", "Maggie"⟩]
        (fun _ => .error "SMTP failure") (fun _ => false) "N"
        [["t", "Jane Doe", "Essay", "", "pending", ""]]).2.2.errors
      = [("Maggie", "SMTP failure")] ∧
    (processReviewRequests [⟨"Jane Doe", "", "u", "Maggie"⟩]
        (fun _ => .error "SMTP failure") (fun _ => false) "N"
        [["t", "Jane Doe", "Essay", "", "pending", ""]]).2.2.notified = 0 ∧
    cell ["t", "Jane Doe", "Essay", "", "pending", ""] 4 = "pending" ∧
    "pending" ≠ "error" := by
  exact ⟨rfl, rfl, rfl, rfl, by decide⟩

/-- C2 amended: in the worksheet subsystem a failed side effect (returned
failure or thrown exception) transitions the item to `error` with the error
text in the outcome column, and every other pending item is still processed
according to its own outcome; in the review-notification subsystem a failed
send leaves the item's row completely unchanged — still `pending`, to be
retried on the next run — while the failure is recorded in the run's error
list, and items of other groups whose send succeeded still transition to
`notified`. -/
theorem processor_failure_handling
    (eff : Nat → RenameEffects) (wguard : Nat → Bool) (wnow : String)
    (wdata : List (List String)) (i : Nat) (row : List String) (e : String)
    (roster : List Student) (mailSend : String → Except String Unit)
    (rguard : Nat → Bool) (rnow : String) (rdata : List (List String)) (r : RVRequest)
    (hwg : ∀ n, wguard n = false) (hrg : ∀ n, rguard n = false)
    (hrow : wdata.get? i = some row) (hpend : cell row 9 = "pending")
    (hfail : wvFailMsg (processWorksheetItem (eff i) row) = some e)
    (hrmem : r ∈ rvFilterPending (getAdvisorForStudent roster) rdata)
    (hrofail : rvOk mailSend (advisorKey r) = false) :
    ((processTasksWorksheets eff wguard wnow wdata).1.get? i
        = some (writeRange row 9 ["error", wnow, "", e]) ∧
      ∀ j row', wdata.get? j = some row' → cell row' 9 = "pending" →
        (processTasksWorksheets eff wguard wnow wdata).1.get? j
          = some (wvApplyOutcome (eff j) wnow row')) ∧
    ((processReviewRequests roster mailSend rguard rnow rdata).1.get? r.rowIndex
        = rdata.get? r.rowIndex ∧
      (advisorKey r, (sendAdvisorNotification mailSend (advisorKey r)).2)
        ∈ (processReviewRequests roster mailSend rguard rnow rdata).2.2.errors ∧
      ∀ r', r' ∈ rvFilterPending (getAdvisorForStudent roster) rdata →
        rvOk mailSend (advisorKey r') = true →
        (processReviewRequests roster mailSend rguard rnow rdata).1.get? r'.rowIndex
          = (rdata.get? r'.rowIndex).map (fun row => writeRange row 4 ["notified", rnow])) := by
  refine ⟨⟨?_, ?_⟩, ?_, ?_, ?_⟩
  · show (wvProcessGo eff wguard wnow 0 wdata).1.get? i = _
    rw [wvProcessGo_char eff wguard wnow hwg wdata 0 i, hrow]
    simp only [Option.map_some']
    rw [if_pos hpend]
    have : 0 + i = i := by omega
    rw [this, wvApplyOutcome_fail (eff i) wnow row e hfail]
  · intro j row' hrow' hpend'
    show (wvProcessGo eff wguard wnow 0 wdata).1.get? j = _
    rw [wvProcessGo_char eff wguard wnow hwg wdata 0 j, hrow']
    simp only [Option.map_some']
    rw [if_pos hpend']
    have : 0 + j = j := by omega
    rw [this]
  · rw [processReviewRequests_final_char roster mailSend rguard rnow rdata hrg r.rowIndex,
      rvFilter_find_self _ rdata r hrmem]
    show (if rvOk mailSend (advisorKey r) = true then
        (rdata.get? r.rowIndex).map (fun row => writeRange row 4 ["notified", rnow])
      else rdata.get? r.rowIndex) = rdata.get? r.rowIndex
    rw [if_neg (by rw [hrofail]; exact Bool.false_ne_true)]
  · exact processReviewRequests_errors_mem roster mailSend rguard rnow rdata hrg r hrmem hrofail
  · intro r' hr'mem hr'ok
    rw [processReviewRequests_final_char roster mailSend rguard rnow rdata hrg r'.rowIndex,
      rvFilter_find_self _ rdata r' hr'mem]
    show (if rvOk mailSend (advisorKey r') = true then
        (rdata.get? r'.rowIndex).map (fun row => writeRange row 4 ["notified", rnow])
      else rdata.get? r'.rowIndex)
      = (rdata.get? r'.rowIndex).map (fun row => writeRange row 4 ["notified", rnow])
    rw [if_pos hr'ok]

theorem processor_failure_handling_witness :
    ((processTasksWorksheets (fun _ => ⟨.ok (), .ok (), .error "copy failed", .ok (), .ok ()⟩)
        (fun _ => false) "N"
        [["t", "Jane", "j@x", "Doe", "F1", "f.pdf", "TF", "3", "SS", "pending", "", "", ""]]).1.get? 0
        = some (writeRange
            ["t", "Jane", "j@x", "Doe", "F1", "f.pdf", "TF", "3", "SS", "pending", "", "", ""]
            9 ["error", "N", "", "copy failed"]) ∧
      ∀ j row', ([["t", "Jane", "j@x", "Doe", "F1", "f.pdf", "TF", "3", "SS", "pending", "", "",
            ""]] : List (List String)).get? j = some row' → cell row' 9 = "pending" →
        (processTasksWorksheets (fun _ => ⟨.ok (), .ok (), .error "copy failed", .ok (), .ok ()⟩)
            (fun _ => false) "N"
            [["t", "Jane", "j@x", "Doe", "F1", "f.pdf", "TF", "3", "SS", "pending", "", "", ""]]).1.get? j
          = some (wvApplyOutcome ((fun _ => (⟨.ok (), .ok (), .error "copy failed", .ok (),
              .ok ()⟩ : RenameEffects)) j) "N" row')) ∧
    ((processReviewRequests [⟨"Jane Doe", "", "u", "Maggie"⟩] (fun _ => .error "SMTP down")
        (fun _ => false) "N" [["t", "Jane Doe", "Essay", "", "pending", ""]]).1.get?
          (rvMkReq (getAdvisorForStudent [⟨"Jane Doe", "", "u", "Maggie"⟩]) 0
            ["t", "Jane Doe", "Essay", "", "pending", ""]).rowIndex
        = ([["t", "Jane Doe", "Essay", "", "pending", ""]] : List (List String)).get?
            (rvMkReq (getAdvisorForStudent [⟨"Jane Doe", "", "u", "Maggie"⟩]) 0
              ["t", "Jane Doe", "Essay", "", "pending", ""]).rowIndex ∧
      (advisorKey (rvMkReq (getAdvisorForStudent [⟨"Jane Doe", "", "u", "Maggie"⟩]) 0
          ["t", "Jane Doe", "Essay", "", "pending", ""]),
        (sendAdvisorNotification (fun _ => .error "SMTP down")
          (advisorKey (rvMkReq (getAdvisorForStudent [⟨"Jane Doe", "", "u", "Maggie"⟩]) 0
            ["t", "Jane Doe", "Essay", "", "pending", ""]))).2)
        ∈ (processReviewRequests [⟨"Jane Doe", "", "u", "Maggie"⟩] (fun _ => .error "SMTP down")
            (fun _ => false) "N" [["t", "Jane Doe", "Essay", "", "pending", ""]]).2.2.errors ∧
      ∀ r', r' ∈ rvFilterPending (getAdvisorForStudent [⟨"Jane Doe", "", "u", "Maggie"⟩])
          [["t", "Jane Doe", "Essay", "", "pending", ""]] →
        rvOk (fun _ => .error "SMTP down") (advisorKey r') = true →
        (processReviewRequests [⟨"Jane Doe", "", "u", "Maggie"⟩] (fun _ => .error "SMTP down")
            (fun _ => false) "N" [["t", "Jane Doe", "Essay", "", "pending", ""]]).1.get? r'.rowIndex
          = (([["t", "Jane Doe", "Essay", "", "pending", ""]] : List (List String)).get?
              r'.rowIndex).map (fun row => writeRange row 4 ["notified", "N"])) :=
  processor_failure_handling
    (fun _ => ⟨.ok (), .ok (), .error "copy failed", .ok (), .ok ()⟩) (fun _ => false) "N"
    [["t", "Jane", "j@x", "Doe", "F1", "f.pdf", "TF", "3", "SS", "pending", "", "", ""]]
    0 ["t", "Jane", "j@x", "Doe", "F1", "f.pdf", "TF", "3", "SS", "pending", "", "", ""]
    "copy failed"
    [⟨"Jane Doe", "", "u", "Maggie"⟩] (fun _ => .error "SMTP down") (fun _ => false) "N"
    [["t", "Jane Doe", "Essay", "", "pending", ""]]
    (rvMkReq (getAdvisorForStudent [⟨"Jane Doe", "", "u", "Maggie"⟩]) 0
      ["t", "Jane Doe", "Essay", "", "pending", ""])
    (fun _ => rfl) (fun _ => rfl) rfl rfl rfl (by decide) (by decide)

/-! ### Claim C7 -/

theorem filterMap_key_nil (mailSend : String → Except String Unit) (A : String)
    (g : List (String × List RVRequest)) (hA : A ∉ groupKeys g) :
    ((g.filterMap (fun p => if rvOk mailSend p.1 = true then
        some (p.1, p.2.map RVRequest.reviewType) else none)).filter
      (fun q => q.1 == A)) = [] := by
  rw [List.filter_eq_nil]
  intro q hq
  obtain ⟨p, hp, hφ⟩ := List.mem_filterMap.mp hq
  have hq1 : q.1 = p.1 := by
    by_cases hok : rvOk mailSend p.1 = true
    · rw [if_pos hok] at hφ
      rw [← Option.some.inj hφ]
    · rw [if_neg hok] at hφ
      exact absurd hφ (Option.noConfusion)
  simp only [beq_iff_eq]
  intro hcon
  have hpk : p.1 ∈ groupKeys g := List.mem_map_of_mem Prod.fst hp
  rw [← hq1, hcon] at hpk
  exact hA hpk

theorem rv_filterMap_key (mailSend : String → Except String Unit) (A : String) :
    ∀ (g : List (String × List RVRequest)), (groupKeys g).Nodup →
      ∀ p, p ∈ g → p.1 = A →
      ((g.filterMap (fun p => if rvOk mailSend p.1 = true then
          some (p.1, p.2.map RVRequest.reviewType) else none)).filter
        (fun q => q.1 == A))
        = if rvOk mailSend A = true then [(A, p.2.map RVRequest.reviewType)] else [] := by
  intro g
  induction g with
  | nil =>
    intro _ p hp
    exact absurd hp (List.not_mem_nil p)
  | cons q rest ih =>
    intro hnd p hp hpA
    have hndrest : (groupKeys rest).Nodup := by
      have : groupKeys (q :: rest) = q.1 :: groupKeys rest := rfl
      rw [this] at hnd
      exact (List.nodup_cons.mp hnd).2
    have hq1notin : q.1 ∉ groupKeys rest := by
      have : groupKeys (q :: rest) = q.1 :: groupKeys rest := rfl
      rw [this] at hnd
      exact (List.nodup_cons.mp hnd).1
    rw [List.filterMap_cons]
    rcases List.mem_cons.mp hp with rfl | hprest
    · by_cases hok : rvOk mailSend p.1 = true
      · rw [if_pos hok]
        rw [List.filter_cons_of_pos (by simpa using hpA)]
        rw [filterMap_key_nil mailSend A rest (hpA ▸ hq1notin)]
        rw [hpA] at hok ⊢
        rw [if_pos hok]
      · rw [if_neg hok]
        rw [filterMap_key_nil mailSend A rest (hpA ▸ hq1notin)]
        rw [hpA] at hok
        rw [if_neg hok]
    · have hqA : q.1 ≠ A := by
        intro hcon
        exact hq1notin (hcon ▸ hpA ▸ List.mem_map_of_mem Prod.fst hprest)
      by_cases hok : rvOk mailSend q.1 = true
      · rw [if_pos hok, List.filter_cons_of_neg (by simpa using hqA)]
        exact ih hndrest p hprest hpA
      · rw [if_neg hok]
        exact ih hndrest p hprest hpA

/-- C7: all pending review-queue items resolving to the same advisor group
key `A` are handled by exactly one notification: the run's sent-notification
list contains exactly one entry for `A`, carrying the subjects
(`reviewType`) of all those items, and on a successful send every one of
those items' rows is updated to `notified` with the one shared `now`
timestamp (the guard never tripping during the run). -/
theorem review_grouped_notification (roster : List Student)
    (mailSend : String → Except String Unit) (guard : Nat → Bool) (now : String)
    (data : List (List String)) (A : String)
    (hg : ∀ n, guard n = false)
    (hS : (rvFilterPending (getAdvisorForStudent roster) data).filter
        (fun r => advisorKey r == A) ≠ [])
    (hok : rvOk mailSend A = true) :
    ((processReviewRequests roster mailSend guard now data).2.1).filter (fun q => q.1 == A)
      = [(A, ((rvFilterPending (getAdvisorForStudent roster) data).filter
          (fun r => advisorKey r == A)).map RVRequest.reviewType)] ∧
    ∀ r ∈ (rvFilterPending (getAdvisorForStudent roster) data).filter
        (fun r => advisorKey r == A),
      (processReviewRequests roster mailSend guard now data).1.get? r.rowIndex
        = (data.get? r.rowIndex).map (fun row => writeRange row 4 ["notified", now]) := by
  obtain ⟨r0, hr0⟩ := List.exists_mem_of_ne_nil _ hS
  have hr0mem : r0 ∈ rvFilterPending (getAdvisorForStudent roster) data :=
    (List.mem_filter.mp hr0).1
  have hr0A : advisorKey r0 = A := by
    have := (List.mem_filter.mp hr0).2
    simpa using this
  have hemp : ¬ (rvFilterPending (getAdvisorForStudent roster) data).isEmpty = true := by
    intro hcon
    rw [List.isEmpty_iff.mp hcon] at hr0mem
    exact List.not_mem_nil r0 hr0mem
  constructor
  · have hnotifs : (processReviewRequests roster mailSend guard now data).2.1
        = (rvSendLoop mailSend guard now 0
            (groupByAdvisor (rvFilterPending (getAdvisorForStudent roster) data))).2.1 := by
      unfold processReviewRequests
      simp only [Bool.not_eq_true] at hemp
      simp only [hemp, Bool.false_eq_true, if_false]
    rw [hnotifs, rvSendLoop_notifs mailSend guard now hg _ 0]
    obtain ⟨p, hp, hp1, hp2⟩ := groupByAdvisor_entry _ r0 hr0mem
    have hkey : ∀ g : String × List RVRequest,
        (if (sendAdvisorNotification mailSend g.1).1 = true then
          some (g.1, g.2.map RVRequest.reviewType) else none)
        = (if rvOk mailSend g.1 = true then
          some (g.1, g.2.map RVRequest.reviewType) else none) := fun g => rfl
    simp only [hkey]
    rw [rv_filterMap_key mailSend A _ (groupByAdvisor_keys_nodup _) p hp (hp1.trans hr0A),
      if_pos hok, hp2, hr0A]
  · intro r hr
    have hrmem : r ∈ rvFilterPending (getAdvisorForStudent roster) data :=
      (List.mem_filter.mp hr).1
    have hrA : advisorKey r = A := by
      have := (List.mem_filter.mp hr).2
      simpa using this
    rw [processReviewRequests_final_char roster mailSend guard now data hg r.rowIndex,
      rvFilter_find_self _ data r hrmem]
    show (if rvOk mailSend (advisorKey r) = true then
        (data.get? r.rowIndex).map (fun row => writeRange row 4 ["notified", now])
      else data.get? r.rowIndex)
      = (data.get? r.rowIndex).map (fun row => writeRange row 4 ["notified", now])
    rw [if_pos (by rw [hrA]; exact hok)]

theorem review_grouped_notification_witness :
    ((processReviewRequests [⟨"E1", "", "u1", "Maggie"⟩, ⟨"E2", "", "u2", "Maggie"⟩]
        (fun _ => .ok ()) (fun _ => false) "N"
        [["t", "E1", "T1", "", "pending", ""], ["t", "E2", "T2", "", "pending", ""]]).2.1).filter
          (fun q => q.1 == "Maggie")
      = [("Maggie", ((rvFilterPending (getAdvisorForStudent
          [⟨"E1", "", "u1", "Maggie"⟩, ⟨"E2", "", "u2", "Maggie"⟩])
          [["t", "E1", "T1", "", "pending", ""], ["t", "E2", "T2", "", "pending", ""]]).filter
            (fun r => advisorKey r == "Maggie")).map RVRequest.reviewType)] ∧
    (processReviewRequests [⟨"E1", "", "u1", "Maggie"⟩, ⟨"E2", "", "u2", "Maggie"⟩]
        (fun _ => .ok ()) (fun _ => false) "N"
        [["t", "E1", "T1", "", "pending", ""], ["t", "E2", "T2", "", "pending", ""]]).1.get?
          (rvMkReq (getAdvisorForStudent [⟨"E1", "", "u1", "Maggie"⟩, ⟨"E2", "", "u2", "Maggie"⟩])
            0 ["t", "E1", "T1", "", "pending", ""]).rowIndex
      = (([["t", "E1", "T1", "", "pending", ""], ["t", "E2", "T2", "", "pending", ""]]
          : List (List String)).get?
            (rvMkReq (getAdvisorForStudent
              [⟨"E1", "", "u1", "Maggie"⟩, ⟨"E2", "", "u2", "Maggie"⟩])
              0 ["t", "E1", "T1", "", "pending", ""]).rowIndex).map
          (fun row => writeRange row 4 ["notified", "N"]) := by
  have h := review_grouped_notification
    [⟨"E1", "", "u1", "Maggie"⟩, ⟨"E2", "", "u2", "Maggie"⟩] (fun _ => .ok ())
    (fun _ => false) "N"
    [["t", "E1", "T1", "", "pending", ""], ["t", "E2", "T2", "", "pending", ""]] "Maggie"
    (fun _ => rfl) (by decide) (by decide)
  exact ⟨h.1, h.2 _ (by decide)⟩

/-! ### Equation lemmas for the shared batch loop -/

theorem collectGo_nil {Q : Type} (guard : Nat → Bool) (visit : Nat → Q → VisitOut Q)
    (nameOf : Nat → String) (totalLen endIdx : Nat) (acc : CollectAcc Q) :
    collectGo guard visit nameOf totalLen endIdx acc []
      = if totalLen ≤ endIdx then
          ⟨acc.queue, acc.scanned, acc.found, acc.skipped, acc.errors, 0, true⟩
        else
          ⟨acc.queue, acc.scanned, acc.found, acc.skipped, acc.errors, endIdx, false⟩ := rfl

theorem collectGo_cons_stop {Q : Type} (guard : Nat → Bool) (visit : Nat → Q → VisitOut Q)
    (nameOf : Nat → String) (totalLen endIdx i : Nat) (rest : List Nat)
    (acc : CollectAcc Q) (hgi : guard i = true) :
    collectGo guard visit nameOf totalLen endIdx acc (i :: rest)
      = ⟨acc.queue, acc.scanned, acc.found, acc.skipped, acc.errors, i, false⟩ := by
  conv_lhs => unfold collectGo
  rw [if_pos hgi]

theorem collectGo_cons_ok {Q : Type} (guard : Nat → Bool) (visit : Nat → Q → VisitOut Q)
    (nameOf : Nat → String) (totalLen endIdx i : Nat) (rest : List Nat)
    (acc : CollectAcc Q) (hgi : guard i = false)
    (hout : (visit i acc.queue).err = none) :
    collectGo guard visit nameOf totalLen endIdx acc (i :: rest)
      = collectGo guard visit nameOf totalLen endIdx
          ⟨(visit i acc.queue).queue, acc.scanned + 1, acc.found + (visit i acc.queue).found,
            acc.skipped, acc.errors⟩ rest := by
  conv_lhs => unfold collectGo
  rw [if_neg (by simp [hgi])]
  show (match (visit i acc.queue).err with
      | none => collectGo guard visit nameOf totalLen endIdx
          ⟨(visit i acc.queue).queue, acc.scanned + 1, acc.found + (visit i acc.queue).found,
            acc.skipped, acc.errors⟩ rest
      | some e => collectGo guard visit nameOf totalLen endIdx
          ⟨(visit i acc.queue).queue, acc.scanned + 1, acc.found + (visit i acc.queue).found,
            acc.skipped + 1, acc.errors ++ [(nameOf i, e)]⟩ rest) = _
  rw [hout]

theorem collectGo_cons_err {Q : Type} (guard : Nat → Bool) (visit : Nat → Q → VisitOut Q)
    (nameOf : Nat → String) (totalLen endIdx i : Nat) (rest : List Nat)
    (acc : CollectAcc Q) (e : String) (hgi : guard i = false)
    (hout : (visit i acc.queue).err = some e) :
    collectGo guard visit nameOf totalLen endIdx acc (i :: rest)
      = collectGo guard visit nameOf totalLen endIdx
          ⟨(visit i acc.queue).queue, acc.scanned + 1, acc.found + (visit i acc.queue).found,
            acc.skipped + 1, acc.errors ++ [(nameOf i, e)]⟩ rest := by
  conv_lhs => unfold collectGo
  rw [if_neg (by simp [hgi])]
  show (match (visit i acc.queue).err with
      | none => collectGo guard visit nameOf totalLen endIdx
          ⟨(visit i acc.queue).queue, acc.scanned + 1, acc.found + (visit i acc.queue).found,
            acc.skipped, acc.errors⟩ rest
      | some e => collectGo guard visit nameOf totalLen endIdx
          ⟨(visit i acc.queue).queue, acc.scanned + 1, acc.found + (visit i acc.queue).found,
            acc.skipped + 1, acc.errors ++ [(nameOf i, e)]⟩ rest) = _
  rw [hout]

/-- With a never-exceeded guard every index of the batch is visited,
regardless of which visits throw. -/
theorem collectGo_scanned_all {Q : Type} (guard : Nat → Bool) (visit : Nat → Q → VisitOut Q)
    (nameOf : Nat → String) (totalLen endIdx : Nat) (hg : ∀ n, guard n = false) :
    ∀ (idxs : List Nat) (acc : CollectAcc Q),
      (collectGo guard visit nameOf totalLen endIdx acc idxs).scanned
        = acc.scanned + idxs.length := by
  intro idxs
  induction idxs with
  | nil =>
    intro acc
    rw [collectGo_nil]
    by_cases h : totalLen ≤ endIdx
    · rw [if_pos h]; rfl
    · rw [if_neg h]; rfl
  | cons i rest ih =>
    intro acc
    cases hout : (visit i acc.queue).err with
    | none =>
      rw [collectGo_cons_ok guard visit nameOf totalLen endIdx i rest acc (hg i) hout, ih]
      show acc.scanned + 1 + rest.length = acc.scanned + (rest.length + 1)
      omega
    | some e =>
      rw [collectGo_cons_err guard visit nameOf totalLen endIdx i rest acc e (hg i) hout, ih]
      show acc.scanned + 1 + rest.length = acc.scanned + (rest.length + 1)
      omega

/-! ### Claim C10 -/

theorem wvScanRowStep_char (gfn : String → Except String String)
    (now name email lastName folderId ssId : String) (rowIdx : Nat) (st : WVScan)
    (rt : RichText) (fid fname : String)
    (hurl : wvFileUrl rt ≠ "")
    (hfid : extractFileId (wvFileUrl rt) = some fid)
    (hkey : st.existing.contains (name ++ "|" ++ fid ++ "|" ++ toString (3 + rowIdx)) = false)
    (hfname : gfn fid = .ok fname) :
    wvScanRowStep gfn now name email lastName folderId ssId rowIdx st (some rt)
      = if strStartsWith (strToLower fname) (strToLower lastName) = true then st
        else ⟨st.queue ++ [wvNewItem now name email lastName fid fname folderId (3 + rowIdx) ssId],
            (name ++ "|" ++ fid ++ "|" ++ toString (3 + rowIdx)) :: st.existing,
            st.found + 1⟩ := by
  simp only [wvScanRowStep, hfid, hkey, hfname]
  rw [if_neg hurl]
  simp only [Bool.false_eq_true, if_false]

/-- C10 counterexample: for the student name `"John  Smith"` (two spaces)
the source's `_extractLastName` yields `"Smith"` (the remainder after the
first space is trimmed), not the claim's `" Smith"`.  Consequently a linked
file named `"Smith Worksheet"` is NOT enqueued by the scan (its name starts
with the code's last name), although the claim's untrimmed last name
`" Smith"` is not a prefix of the filename, so the claim predicts an
enqueue. -/
theorem extract_last_name_double_space :
    extractLastName (some "John  Smith") = "Smith" ∧
    claimLastName (some "John  Smith") = " Smith" ∧
    (scanStudentWorksheets (fun _ => .ok "Smith Worksheet") "T2" ⟨"John  Smith", "", "uS", ""⟩
        (.ok ⟨"SS1", some [some ⟨some "https://docs.google.com/document/d/F1/edit", ""⟩], ""⟩)
        [] []).found = 0 ∧
    (scanStudentWorksheets (fun _ => .ok "Smith Worksheet") "T2" ⟨"John  Smith", "", "uS", ""⟩
        (.ok ⟨"SS1", some [some ⟨some "https://docs.google.com/document/d/F1/edit", ""⟩], ""⟩)
        [] []).queue.1 = [] ∧
    strStartsWith (strToLower "Smith Worksheet")
      (strToLower (claimLastName (some "John  Smith"))) = false := by
  refine ⟨by decide, by decide, by decide, by decide, by decide⟩

/-- C10 amended: a linked file is enqueued for renaming iff its filename
does not start (case-insensitively) with the extracted last name, where the
extracted last name is everything after the first space of the trimmed name,
itself trimmed (the whole trimmed name when it contains no space, and `""`
for empty or non-string input — the characterization `amendedLastName`,
proved equal to the source's `_extractLastName`).  Files whose names already
carry the prefix are never enqueued. -/
theorem worksheet_rename_enqueue_condition
    (gfn : String → Except String String) (now : String) (student : Student)
    (ssId folderUrl : String) (rt : RichText) (q : List (List String)) (ex : List String)
    (fid fname : String)
    (hurl : wvFileUrl rt ≠ "")
    (hfid : extractFileId (wvFileUrl rt) = some fid)
    (hkey : ex.contains (student.name ++ "|" ++ fid ++ "|" ++ toString 3) = false)
    (hfname : gfn fid = .ok fname) :
    (∀ n, extractLastName n = amendedLastName n) ∧
    (scanStudentWorksheets gfn now student
        (.ok ⟨ssId, some [some rt], folderUrl⟩) q ex).queue.1
      = (if strStartsWith (strToLower fname)
            (strToLower (extractLastName (some student.name))) = true then q
         else q ++ [wvNewItem now student.name student.email
            (extractLastName (some student.name)) fid fname
            ((extractFileId folderUrl).getD "") 3 ssId]) ∧
    (scanStudentWorksheets gfn now student
        (.ok ⟨ssId, some [some rt], folderUrl⟩) q ex).found
      = (if strStartsWith (strToLower fname)
            (strToLower (extractLastName (some student.name))) = true then 0
         else 1) := by
  have hstep := wvScanRowStep_char gfn now student.name student.email
    (extractLastName (some student.name)) ((extractFileId folderUrl).getD "") ssId 0
    ⟨q, ex, 0⟩ rt fid fname hurl hfid hkey hfname
  refine ⟨extractLastName_eq_amended, ?_, ?_⟩
  · show (wvScanRowStep gfn now student.name student.email
        (extractLastName (some student.name)) ((extractFileId folderUrl).getD "") ssId 0
        ⟨q, ex, 0⟩ (some rt)).queue = _
    rw [hstep]
    by_cases hsw : strStartsWith (strToLower fname)
        (strToLower (extractLastName (some student.name))) = true
    · rw [if_pos hsw, if_pos hsw]
    · rw [if_neg hsw, if_neg hsw]
  · show (wvScanRowStep gfn now student.name student.email
        (extractLastName (some student.name)) ((extractFileId folderUrl).getD "") ssId 0
        ⟨q, ex, 0⟩ (some rt)).found = _
    rw [hstep]
    by_cases hsw : strStartsWith (strToLower fname)
        (strToLower (extractLastName (some student.name))) = true
    · rw [if_pos hsw, if_pos hsw]
    · rw [if_neg hsw, if_neg hsw]

theorem worksheet_rename_enqueue_condition_witness :
    (∀ n, extractLastName n = amendedLastName n) ∧
    (scanStudentWorksheets (fun _ => .ok "Essay.pdf") "T" ⟨"Jane Doe", "j@x", "u", ""⟩
        (.ok ⟨"SS", some [some ⟨some "https://docs.google.com/document/d/F9/edit", ""⟩], ""⟩)
        [] []).queue.1
      = (if strStartsWith (strToLower "Essay.pdf")
            (strToLower (extractLastName (some (⟨"Jane Doe", "j@x", "u", ""⟩ : Student).name)))
            = true then []
         else [] ++ [wvNewItem "T" (⟨"Jane Doe", "j@x", "u", ""⟩ : Student).name
            (⟨"Jane Doe", "j@x", "u", ""⟩ : Student).email
            (extractLastName (some (⟨"Jane Doe", "j@x", "u", ""⟩ : Student).name)) "F9"
            "Essay.pdf" ((extractFileId "").getD "") 3 "SS"]) ∧
    (scanStudentWorksheets (fun _ => .ok "Essay.pdf") "T" ⟨"Jane Doe", "j@x", "u", ""⟩
        (.ok ⟨"SS", some [some ⟨some "https://docs.google.com/document/d/F9/edit", ""⟩], ""⟩)
        [] []).found
      = (if strStartsWith (strToLower "Essay.pdf")
            (strToLower (extractLastName (some (⟨"Jane Doe", "j@x", "u", ""⟩ : Student).name)))
            = true then 0
         else 1) :=
  worksheet_rename_enqueue_condition (fun _ => .ok "Essay.pdf") "T" ⟨"Jane Doe", "j@x", "u", ""⟩
    "SS" "" ⟨some "https://docs.google.com/document/d/F9/edit", ""⟩ [] [] "F9" "Essay.pdf"
    (by decide) (by decide) (by decide) rfl

/-! ### Claim C5 -/

/-- C5: error isolation in the Collector batch.  First conjunct: with a
never-exceeded guard every student of the batch window is scanned, no matter
which visits throw.  Second conjunct: in the scenario roster = [A (whose
spreadsheet open throws), B (valid, with one improperly named linked file)],
one run records exactly one error keyed by A's name, counts one skip, scans
both students, and appends exactly the one new pending queue item from B. -/
theorem collector_error_isolation :
    (∀ (env : WVEnv) (students : List Student) (startIndex batchSize : Nat)
        (q0 : List (List String)), (∀ n, env.guard n = false) →
      (collectTasksWorksheets env students startIndex batchSize q0).scanned
        = min (startIndex + batchSize) students.length - startIndex) ∧
    (∀ (env : WVEnv) (A B : Student) (batchSize : Nat)
        (e ssId folderUrl fname fid : String) (rt : RichText),
      (∀ n, env.guard n = false) → 2 ≤ batchSize →
      env.openStudent A.url = .error e →
      env.openStudent B.url = .ok ⟨ssId, some [some rt], folderUrl⟩ →
      wvFileUrl rt ≠ "" → extractFileId (wvFileUrl rt) = some fid →
      env.getFileName fid = .ok fname →
      strStartsWith (strToLower fname) (strToLower (extractLastName (some B.name))) = false →
      (collectTasksWorksheets env [A, B] 0 batchSize []).errors = [(A.name, e)] ∧
      (collectTasksWorksheets env [A, B] 0 batchSize []).skipped = 1 ∧
      (collectTasksWorksheets env [A, B] 0 batchSize []).scanned = 2 ∧
      (collectTasksWorksheets env [A, B] 0 batchSize []).found = 1 ∧
      (collectTasksWorksheets env [A, B] 0 batchSize []).queue.1
        = [wvNewItem env.now B.name B.email (extractLastName (some B.name)) fid fname
            ((extractFileId folderUrl).getD "") 3 ssId]) := by
  constructor
  · intro env students s b q0 hg
    unfold collectTasksWorksheets collectBatch
    rw [collectGo_scanned_all env.guard _ _ students.length _ hg]
    simp [List.length_range']
  · intro env A B bs e ssId folderUrl fname fid rt hg hbs hA hB hurl hfid hfname hsw
    have hend : min (0 + bs) (List.length [A, B]) = 2 := by
      simp only [List.length_cons, List.length_nil]
      omega
    have hv0 : wvVisit env [A, B] 0 ([], []) = ⟨([], []), 0, some e⟩ := by
      show scanStudentWorksheets env.getFileName env.now A (env.openStudent A.url) [] [] = _
      rw [hA]
      rfl
    have hv1 : wvVisit env [A, B] 1 ([], [])
        = ⟨([wvNewItem env.now B.name B.email (extractLastName (some B.name)) fid fname
              ((extractFileId folderUrl).getD "") 3 ssId],
            [B.name ++ "|" ++ fid ++ "|" ++ toString 3]), 1, none⟩ := by
      show scanStudentWorksheets env.getFileName env.now B (env.openStudent B.url) [] [] = _
      rw [hB]
      show (⟨((wvScanRowStep env.getFileName env.now B.name B.email
            (extractLastName (some B.name)) ((extractFileId folderUrl).getD "") ssId 0
            ⟨[], [], 0⟩ (some rt)).queue,
          (wvScanRowStep env.getFileName env.now B.name B.email
            (extractLastName (some B.name)) ((extractFileId folderUrl).getD "") ssId 0
            ⟨[], [], 0⟩ (some rt)).existing),
          (wvScanRowStep env.getFileName env.now B.name B.email
            (extractLastName (some B.name)) ((extractFileId folderUrl).getD "") ssId 0
            ⟨[], [], 0⟩ (some rt)).found, none⟩
          : VisitOut (List (List String) × List String)) = _
      rw [wvScanRowStep_char env.getFileName env.now B.name B.email
        (extractLastName (some B.name)) ((extractFileId folderUrl).getD "") ssId 0
        ⟨[], [], 0⟩ rt fid fname hurl hfid rfl hfname]
      rw [if_neg (by rw [hsw]; exact Bool.false_ne_true)]
      rfl
    have e0 : collectTasksWorksheets env [A, B] 0 bs []
        = collectGo env.guard (wvVisit env [A, B]) (studentNameOf [A, B]) 2 2
            ⟨([], []), 0, 0, 0, []⟩ [0, 1] := by
      unfold collectTasksWorksheets collectBatch
      simp only [hend]
      rfl
    have e1 : collectGo env.guard (wvVisit env [A, B]) (studentNameOf [A, B]) 2 2
          ⟨([], []), 0, 0, 0, []⟩ [0, 1]
        = collectGo env.guard (wvVisit env [A, B]) (studentNameOf [A, B]) 2 2
            ⟨([], []), 1, 0, 1, [(A.name, e)]⟩ [1] := by
      rw [collectGo_cons_err env.guard (wvVisit env [A, B]) (studentNameOf [A, B]) 2 2 0 [1]
        ⟨([], []), 0, 0, 0, []⟩ e (hg 0) (by rw [hv0])]
      rw [show (⟨([], []), 0, 0, 0, []⟩ : CollectAcc (List (List String) × List String)).queue
        = (([], []) : List (List String) × List String) from rfl, hv0]
      rfl
    have e2 : collectGo env.guard (wvVisit env [A, B]) (studentNameOf [A, B]) 2 2
          ⟨([], []), 1, 0, 1, [(A.name, e)]⟩ [1]
        = collectGo env.guard (wvVisit env [A, B]) (studentNameOf [A, B]) 2 2
            ⟨([wvNewItem env.now B.name B.email (extractLastName (some B.name)) fid fname
                ((extractFileId folderUrl).getD "") 3 ssId],
              [B.name ++ "|" ++ fid ++ "|" ++ toString 3]), 2, 1, 1, [(A.name, e)]⟩ [] := by
      rw [collectGo_cons_ok env.guard (wvVisit env [A, B]) (studentNameOf [A, B]) 2 2 1 []
        ⟨([], []), 1, 0, 1, [(A.name, e)]⟩ (hg 1) (by rw [hv1])]
      rw [show (⟨([], []), 1, 0, 1, [(A.name, e)]⟩
        : CollectAcc (List (List String) × List String)).queue
        = (([], []) : List (List String) × List String) from rfl, hv1]
      rfl
    have e3 : collectGo env.guard (wvVisit env [A, B]) (studentNameOf [A, B]) 2 2
          ⟨([wvNewItem env.now B.name B.email (extractLastName (some B.name)) fid fname
              ((extractFileId folderUrl).getD "") 3 ssId],
            [B.name ++ "|" ++ fid ++ "|" ++ toString 3]), 2, 1, 1, [(A.name, e)]⟩ []
        = ⟨([wvNewItem env.now B.name B.email (extractLastName (some B.name)) fid fname
              ((extractFileId folderUrl).getD "") 3 ssId],
            [B.name ++ "|" ++ fid ++ "|" ++ toString 3]), 2, 1, 1, [(A.name, e)], 0, true⟩ := by
      rw [collectGo_nil, if_pos (by omega)]
    rw [e0, e1, e2, e3]
    exact ⟨rfl, rfl, rfl, rfl, rfl⟩

theorem collector_error_isolation_witness :
    (collectTasksWorksheets
        ⟨fun _ => false,
          fun u => if u = "uA" then .error "open failed"
            else .ok ⟨"SSB", some [some ⟨some "https://docs.google.com/document/d/FB/edit", ""⟩],
              ""⟩,
          fun _ => .ok "Untitled doc", "T1"⟩
        [⟨"Ann Kim", "", "uA", ""⟩, ⟨"Bob Lee", "bob@x.com", "uB", ""⟩] 0 30 []).errors
      = [((⟨"Ann Kim", "", "uA", ""⟩ : Student).name, "open failed")] ∧
    (collectTasksWorksheets
        ⟨fun _ => false,
          fun u => if u = "uA" then .error "open failed"
            else .ok ⟨"SSB", some [some ⟨some "https://docs.google.com/document/d/FB/edit", ""⟩],
              ""⟩,
          fun _ => .ok "Untitled doc", "T1"⟩
        [⟨"Ann Kim", "", "uA", ""⟩, ⟨"Bob Lee", "bob@x.com", "uB", ""⟩] 0 30 []).skipped = 1 ∧
    (collectTasksWorksheets
        ⟨fun _ => false,
          fun u => if u = "uA" then .error "open failed"
            else .ok ⟨"SSB", some [some ⟨some "https://docs.google.com/document/d/FB/edit", ""⟩],
              ""⟩,
          fun _ => .ok "Untitled doc", "T1"⟩
        [⟨"Ann Kim", "", "uA", ""⟩, ⟨"Bob Lee", "bob@x.com", "uB", ""⟩] 0 30 []).scanned = 2 ∧
    (collectTasksWorksheets
        ⟨fun _ => false,
          fun u => if u = "uA" then .error "open failed"
            else .ok ⟨"SSB", some [some ⟨some "https://docs.google.com/document/d/FB/edit", ""⟩],
              ""⟩,
          fun _ => .ok "Untitled doc", "T1"⟩
        [⟨"Ann Kim", "", "uA", ""⟩, ⟨"Bob Lee", "bob@x.com", "uB", ""⟩] 0 30 []).found = 1 ∧
    (collectTasksWorksheets
        ⟨fun _ => false,
          fun u => if u = "uA" then .error "open failed"
            else .ok ⟨"SSB", some [some ⟨some "https://docs.google.com/document/d/FB/edit", ""⟩],
              ""⟩,
          fun _ => .ok "Untitled doc", "T1"⟩
        [⟨"Ann Kim", "", "uA", ""⟩, ⟨"Bob Lee", "bob@x.com", "uB", ""⟩] 0 30 []).queue.1
      = [wvNewItem "T1" (⟨"Bob Lee", "bob@x.com", "uB", ""⟩ : Student).name
          (⟨"Bob Lee", "bob@x.com", "uB", ""⟩ : Student).email
          (extractLastName (some (⟨"Bob Lee", "bob@x.com", "uB", ""⟩ : Student).name)) "FB"
          "Untitled doc" ((extractFileId "").getD "") 3 "SSB"] :=
  (collector_error_isolation).2
    ⟨fun _ => false,
      fun u => if u = "uA" then .error "open failed"
        else .ok ⟨"SSB", some [some ⟨some "https://docs.google.com/document/d/FB/edit", ""⟩], ""⟩,
      fun _ => .ok "Untitled doc", "T1"⟩
    ⟨"Ann Kim", "", "uA", ""⟩ ⟨"Bob Lee", "bob@x.com", "uB", ""⟩ 30
    "open failed" "SSB" "" "Untitled doc" "FB"
    ⟨some "https://docs.google.com/document/d/FB/edit", ""⟩
    (fun _ => rfl) (by omega) rfl rfl (by decide) (by decide) rfl (by decide)

/-! ### Claim C1 -/

/-- A Tasks sheet with two data rows (3 and 4), both `Needs Review` with task
title `Essay` and no link cells. -/
def janeTasksSheet : RVSheet :=
  ⟨4, fun _ c => if c = 3 then "Needs Review" else if c = 4 then "Essay" else "",
    fun _ _ => none⟩

/-- A student spreadsheet exposing only that Tasks sheet. -/
def janeDoc : RVStudentDoc :=
  ⟨fun s => if s = "Tasks" then some janeTasksSheet else none, none⟩

/-- A review-collector environment that opens `janeDoc` for every student,
with the execution-time guard never firing. -/
def janeEnv : RVEnv := ⟨fun _ => false, fun _ => .ok janeDoc, "T0"⟩

/-- C1 counterexample: the review collector does NOT add the dedup key of an
appended item to its in-memory duplicate-check snapshot.  With two `Needs
Review` rows carrying the same task title `Essay` for the same student, one
run appends two identical pending queue items: the student-name/task-title
dedup key occurs twice in the queue the run produces. -/
theorem collectReview_duplicate_same_run :
    (collectReviewRequests janeEnv [⟨"Jane Doe", "", "u", "Maggie"⟩] 0 50 []).queue
      = [["T0", "Jane Doe", "Essay", "", "pending", ""],
         ["T0", "Jane Doe", "Essay", "", "pending", ""]] ∧
    ¬ (((collectReviewRequests janeEnv [⟨"Jane Doe", "", "u", "Maggie"⟩] 0 50 []).queue.map
        (fun row => (cell row 1, cell row 2))).Nodup) :=
  ⟨rfl, by decide⟩

theorem wvRowKey_newItem (now name email lastName fid fname folderId : String)
    (actualRow : Nat) (ssId : String) :
    wvRowKey (wvNewItem now name email lastName fid fname folderId actualRow ssId)
      = name ++ "|" ++ fid ++ "|" ++ toString actualRow := rfl

theorem wv_contains_false_not_mem {l : List String} {a : String}
    (h : l.contains a = false) : a ∉ l := by
  intro hm
  have ht : l.contains a = true := List.contains_iff_exists_mem_beq.mpr ⟨a, hm, by simp⟩
  rw [ht] at h
  exact Bool.noConfusion h

/-- Every worksheet-scan row step either leaves the state unchanged or
appends exactly one item whose dedup key was absent from the in-memory set
and is inserted into it. -/
theorem wvScanRowStep_inv (gfn : String → Except String String)
    (now name email lastName folderId ssId : String) (rowIdx : Nat) (st : WVScan)
    (ort : Option RichText) :
    wvScanRowStep gfn now name email lastName folderId ssId rowIdx st ort = st ∨
    ∃ fid fname,
      st.existing.contains (name ++ "|" ++ fid ++ "|" ++ toString (3 + rowIdx)) = false ∧
      wvScanRowStep gfn now name email lastName folderId ssId rowIdx st ort
        = ⟨st.queue ++ [wvNewItem now name email lastName fid fname folderId (3 + rowIdx) ssId],
            (name ++ "|" ++ fid ++ "|" ++ toString (3 + rowIdx)) :: st.existing,
            st.found + 1⟩ := by
  cases ort with
  | none => exact Or.inl rfl
  | some rt =>
    by_cases hurl : wvFileUrl rt = ""
    · left
      simp only [wvScanRowStep]
      rw [if_pos hurl]
    · cases hfid : extractFileId (wvFileUrl rt) with
      | none =>
        left
        simp only [wvScanRowStep, hfid]
        rw [if_neg hurl]
      | some fid =>
        cases hkey : st.existing.contains (name ++ "|" ++ fid ++ "|" ++ toString (3 + rowIdx)) with
        | true =>
          left
          simp only [wvScanRowStep, hfid, hkey]
          rw [if_neg hurl]
          rw [if_pos trivial]
        | false =>
          cases hfn : gfn fid with
          | error e =>
            left
            simp only [wvScanRowStep, hfid, hkey, hfn]
            rw [if_neg hurl]
            simp only [Bool.false_eq_true, if_false]
          | ok fname =>
            by_cases hsw : strStartsWith (strToLower fname) (strToLower lastName) = true
            · left
              rw [wvScanRowStep_char gfn now name email lastName folderId ssId rowIdx st rt
                fid fname hurl hfid hkey hfn, if_pos hsw]
            · right
              refine ⟨fid, fname, hkey, ?_⟩
              rw [wvScanRowStep_char gfn now name email lastName folderId ssId rowIdx st rt
                fid fname hurl hfid hkey hfn, if_neg hsw]

/-- Invariant of the worksheet row loop: the rows appended by the run so far
have pairwise distinct dedup keys, all registered in the in-memory set, and
all carry status `pending`. -/
theorem wvScanRows_inv (gfn : String → Except String String)
    (now name email lastName folderId ssId : String) (rows : List (Option RichText))
    (rowIdx : Nat) (st : WVScan) (q0 new0 : List (List String))
    (h1 : st.queue = q0 ++ new0) (h2 : (new0.map wvRowKey).Nodup)
    (h3 : ∀ r ∈ new0, wvRowKey r ∈ st.existing ∧ cell r 9 = "pending") :
    ∃ new,
      (wvScanRows gfn now name email lastName folderId ssId rowIdx st rows).queue
        = q0 ++ new ∧
      (new.map wvRowKey).Nodup ∧
      ∀ r ∈ new,
        wvRowKey r ∈ (wvScanRows gfn now name email lastName folderId ssId rowIdx st rows).existing ∧
        cell r 9 = "pending" := by
  induction rows generalizing rowIdx st new0 with
  | nil => exact ⟨new0, h1, h2, h3⟩
  | cons ort rest ih =>
    rw [show wvScanRows gfn now name email lastName folderId ssId rowIdx st (ort :: rest)
        = wvScanRows gfn now name email lastName folderId ssId (rowIdx + 1)
            (wvScanRowStep gfn now name email lastName folderId ssId rowIdx st ort) rest
      from rfl]
    rcases wvScanRowStep_inv gfn now name email lastName folderId ssId rowIdx st ort with
      heq | ⟨fid, fname, hkeyf, heq⟩
    · rw [heq]
      exact ih (rowIdx + 1) st new0 h1 h2 h3
    · rw [heq]
      refine ih (rowIdx + 1) _
        (new0 ++ [wvNewItem now name email lastName fid fname folderId (3 + rowIdx) ssId])
        ?_ ?_ ?_
      · show st.queue ++ [wvNewItem now name email lastName fid fname folderId (3 + rowIdx) ssId]
          = q0 ++ (new0 ++ [wvNewItem now name email lastName fid fname folderId (3 + rowIdx) ssId])
        rw [h1, List.append_assoc]
      · rw [List.map_append]
        refine List.Nodup.append h2 (by simp) ?_
        intro k hk1 hk2
        simp only [List.map_cons, List.map_nil, List.mem_singleton, wvRowKey_newItem] at hk2
        subst hk2
        obtain ⟨r, hr, hrk⟩ := List.mem_map.mp hk1
        have hmem := (h3 r hr).1
        rw [hrk] at hmem
        exact wv_contains_false_not_mem hkeyf hmem
      · intro r hr
        rcases List.mem_append.mp hr with h | h
        · obtain ⟨hx, hp⟩ := h3 r h
          exact ⟨List.mem_cons_of_mem _ hx, hp⟩
        · rw [List.mem_singleton] at h
          subst h
          refine ⟨?_, rfl⟩
          rw [wvRowKey_newItem]
          exact List.mem_cons_self _ _

/-- The scan invariant lifted through `_scanStudentWorksheets`. -/
theorem scanStudentWorksheets_inv (gfn : String → Except String String) (now : String)
    (student : Student) (openRes : Except String WVStudentDoc)
    (q : List (List String)) (ex : List String) (q0 new0 : List (List String))
    (h1 : q = q0 ++ new0) (h2 : (new0.map wvRowKey).Nodup)
    (h3 : ∀ r ∈ new0, wvRowKey r ∈ ex ∧ cell r 9 = "pending") :
    ∃ new,
      (scanStudentWorksheets gfn now student openRes q ex).queue.1 = q0 ++ new ∧
      (new.map wvRowKey).Nodup ∧
      ∀ r ∈ new,
        wvRowKey r ∈ (scanStudentWorksheets gfn now student openRes q ex).queue.2 ∧
        cell r 9 = "pending" := by
  cases openRes with
  | error e => exact ⟨new0, h1, h2, h3⟩
  | ok doc =>
    obtain ⟨ssId, trows, folderUrl⟩ := doc
    cases trows with
    | none => exact ⟨new0, h1, h2, h3⟩
    | some rows =>
      exact wvScanRows_inv gfn now student.name student.email
        (extractLastName (some student.name)) ((extractFileId folderUrl).getD "") ssId rows 0
        ⟨q, ex, 0⟩ q0 new0 h1 h2 h3

/-- The scan invariant lifted through the per-student visit. -/
theorem wvVisit_inv (env : WVEnv) (students : List Student) (i : Nat)
    (st : List (List String) × List String) (q0 new0 : List (List String))
    (h1 : st.1 = q0 ++ new0) (h2 : (new0.map wvRowKey).Nodup)
    (h3 : ∀ r ∈ new0, wvRowKey r ∈ st.2 ∧ cell r 9 = "pending") :
    ∃ new,
      (wvVisit env students i st).queue.1 = q0 ++ new ∧
      (new.map wvRowKey).Nodup ∧
      ∀ r ∈ new, wvRowKey r ∈ (wvVisit env students i st).queue.2 ∧ cell r 9 = "pending" := by
  cases hget : students.get? i with
  | none =>
    rw [show wvVisit env students i st = ⟨st, 0, none⟩ from by unfold wvVisit; rw [hget]]
    exact ⟨new0, h1, h2, h3⟩
  | some s =>
    rw [show wvVisit env students i st
        = scanStudentWorksheets env.getFileName env.now s (env.openStudent s.url) st.1 st.2
      from by unfold wvVisit; rw [hget]]
    exact scanStudentWorksheets_inv env.getFileName env.now s (env.openStudent s.url)
      st.1 st.2 q0 new0 h1 h2 h3

/-- The scan invariant carried through the batch loop. -/
theorem collectGo_wv_inv (env : WVEnv) (students : List Student)
    (nameOf : Nat → String) (totalLen endIdx : Nat) (idxs : List Nat)
    (acc : CollectAcc (List (List String) × List String)) (q0 new0 : List (List String))
    (h1 : acc.queue.1 = q0 ++ new0) (h2 : (new0.map wvRowKey).Nodup)
    (h3 : ∀ r ∈ new0, wvRowKey r ∈ acc.queue.2 ∧ cell r 9 = "pending") :
    ∃ new,
      (collectGo env.guard (wvVisit env students) nameOf totalLen endIdx acc idxs).queue.1
        = q0 ++ new ∧
      (new.map wvRowKey).Nodup ∧
      ∀ r ∈ new, cell r 9 = "pending" := by
  induction idxs generalizing acc new0 with
  | nil =>
    rw [collectGo_nil]
    by_cases h : totalLen ≤ endIdx
    · rw [if_pos h]
      exact ⟨new0, h1, h2, fun r hr => (h3 r hr).2⟩
    · rw [if_neg h]
      exact ⟨new0, h1, h2, fun r hr => (h3 r hr).2⟩
  | cons i rest ih =>
    cases hg : env.guard i with
    | true =>
      rw [collectGo_cons_stop env.guard (wvVisit env students) nameOf totalLen endIdx i rest acc hg]
      exact ⟨new0, h1, h2, fun r hr => (h3 r hr).2⟩
    | false =>
      obtain ⟨new1, k1, k2, k3⟩ := wvVisit_inv env students i acc.queue q0 new0 h1 h2 h3
      cases hout : (wvVisit env students i acc.queue).err with
      | none =>
        rw [collectGo_cons_ok env.guard (wvVisit env students) nameOf totalLen endIdx i rest acc
          hg hout]
        exact ih _ new1 k1 k2 k3
      | some e =>
        rw [collectGo_cons_err env.guard (wvVisit env students) nameOf totalLen endIdx i rest acc
          e hg hout]
        exact ih _ new1 k1 k2 k3

/-- C1 amended: only the WORKSHEET collector registers the dedup key of every
appended item in its in-memory set (`existingItems.add` after the append), so
within one of its runs at most one queue item per dedup key is appended: the
newly appended rows have pairwise distinct dedup keys (and all are pending).
The review and outbound collectors check duplicates only against a per-student
snapshot of the queue sheet taken before scanning that student and never add
appended items to it, so a second candidate with the same key later in the
same run IS appended (see the counterexample). -/
theorem worksheet_dedup_at_most_once_per_run (env : WVEnv) (students : List Student)
    (startIndex batchSize : Nat) (q0 : List (List String)) :
    ∃ new,
      (collectTasksWorksheets env students startIndex batchSize q0).queue.1 = q0 ++ new ∧
      (new.map wvRowKey).Nodup ∧
      ∀ r ∈ new, cell r 9 = "pending" :=
  collectGo_wv_inv env students (studentNameOf students) students.length
    (min (startIndex + batchSize) students.length)
    (List.range' startIndex (min (startIndex + batchSize) students.length - startIndex))
    ⟨(q0, getExistingQueueItems q0), 0, 0, 0, []⟩ q0 []
    (List.append_nil q0).symm List.nodup_nil
    (fun r hr => absurd hr (List.not_mem_nil r))

theorem worksheet_dedup_at_most_once_per_run_witness :
    ∃ new,
      (collectTasksWorksheets
          ⟨fun _ => false,
            fun _ => .ok ⟨"SS9",
              some [some ⟨some "https://docs.google.com/document/d/F9/edit", ""⟩,
                some ⟨some "https://docs.google.com/document/d/F9/edit", ""⟩], ""⟩,
            fun _ => .ok "Untitled", "T9"⟩
          [⟨"Zoe Park", "z@x.com", "uZ", ""⟩] 0 10 []).queue.1 = [] ++ new ∧
      (new.map wvRowKey).Nodup ∧
      ∀ r ∈ new, cell r 9 = "pending" :=
  worksheet_dedup_at_most_once_per_run
    ⟨fun _ => false,
      fun _ => .ok ⟨"SS9",
        some [some ⟨some "https://docs.google.com/document/d/F9/edit", ""⟩,
          some ⟨some "https://docs.google.com/document/d/F9/edit", ""⟩], ""⟩,
      fun _ => .ok "Untitled", "T9"⟩
    [⟨"Zoe Park", "z@x.com", "uZ", ""⟩] 0 10 []

end Summit
